import Mathlib

/-!
Verification of the synapse-relay signal relay node.

This file gives a shallow embedding, in Lean 4, of the parts of the
synapse-relay repository that the verified properties talk about:

* the JSON payload model (payloads are open JSON objects),
* the payload transform engine (src/relay/rule-engine.ts, applyTransform),
* the binary wire codec (interlock protocol, encodeMessage /
  decodeBinaryMessage),
* the tumbler (interlock tumbler, validateMessage),
* the durable signal buffer and its manager
  (src/database/schema.ts signal_buffer CRUD, src/relay/buffer-manager.ts),
* the delivery engine (dist/relay/engine.js relaySignal / sendToTarget /
  encodeRelayMessage),
* the statistics query (stats-aggregator getRelayStatistics).

Machine integers of the source (JS numbers used as integers, SQLite INTEGER
columns) are modelled as Int, or as Nat where the source value is a length,
a count of list elements, or an unsigned field read from a wire header.
Timestamps (epoch milliseconds) are Int.  Each definition carries a note
naming the source function it embeds.  Calls to Date.now() made inside one
synchronous function body are modelled as a single instant passed in as a
`now` parameter.
-/

namespace SynapseRelay

/-! ## JSON values

Payloads in the source are open JSON objects (`Record<string, unknown>`).
JSON objects are modelled as insertion-ordered association lists of
string keys, matching the enumeration-order semantics of JS objects.
-/

inductive Json where
  | null : Json
  | jbool (b : Bool) : Json
  | num (n : Int) : Json
  | str (s : String) : Json
  | arr (xs : List Json) : Json
  | obj (fields : List (String × Json)) : Json

/-- A JSON object body: insertion-ordered key/value pairs. -/
abbrev Obj := List (String × Json)

/-- Property lookup `o[k]` on a JS object: first binding for the key
(JS objects have unique keys; on a duplicate-free list this is the
binding). -/
def objGet : Obj → String → Option Json
  | [], _ => none
  | (k', v) :: rest, k => if k' == k then some v else objGet rest k

/-- Property assignment `o[k] = v` on a JS object: updates the existing
binding in place (JS keeps the key's insertion position) or appends a new
binding at the end. -/
def objSet : Obj → String → Json → Obj
  | [], k, v => [(k, v)]
  | (k', v') :: rest, k, v =>
      if k' == k then (k, v) :: rest else (k', v') :: objSet rest k v

/-- Property deletion `delete o[k]`: removes the binding for the key.
(Removing every binding with the key coincides with JS semantics on the
unique-key objects JS produces.) -/
def objDel : Obj → String → Obj
  | [], _ => []
  | (k', v) :: rest, k =>
      if k' == k then objDel rest k else (k', v) :: objDel rest k

/-- The `k in o` test of JS. -/
def objHasKey (fields : Obj) (k : String) : Bool :=
  (objGet fields k).isSome

/-- JS truthiness of a JSON value: `null`, `false`, `0` and `""` are falsy
(`NaN` does not arise for decoded JSON integers in this model). -/
def jsTruthy : Json → Bool
  | .null => false
  | .jbool b => b
  | .num n => !(n == 0)
  | .str s => !(s == "")
  | .arr _ => true
  | .obj _ => true

/-! ## Transform engine (src/relay/rule-engine.ts, applyTransform)

`applyTransform(payload, transform)` copies the payload and then walks the
transform spec's entries in insertion order.  An entry `(k, null)` deletes
key `k`; an entry whose value is a non-null object with a `rename` field
moves the named source field under `k`; any other entry sets `k` to the
literal value.
-/

/-- Does the transform value select the rename branch?  Source test:
`typeof value === 'object' && value !== null && 'rename' in value`.
JSON arrays are objects in JS but never contain a string property
`rename`, and `null` is excluded explicitly, so the branch is taken
exactly for JSON objects with a `rename` key. -/
def isRenameSpec : Json → Bool
  | .obj fs => objHasKey fs "rename"
  | _ => false

/-- The JS property key a JSON value coerces to when used as
`result[renameFrom]`.  The source casts the `rename` field to string; rules
written by the operator use string values, for which this is the identity.
(The coercions for the remaining JSON shapes follow JS ToString on the
shapes representable here; none of the verified properties exercise
them.) -/
def jsKeyOf : Json → String
  | .str s => s
  | .num n => toString n
  | .jbool true => "true"
  | .jbool false => "false"
  | .null => "null"
  | .arr _ => ""
  | .obj _ => "[object Object]"

/-- One entry of the transform loop body of `applyTransform`. -/
def applyTransformStep (result : Obj) (entry : String × Json) : Obj :=
  match entry.2 with
  | .null => objDel result entry.1
  | v =>
      if isRenameSpec v then
        -- rename branch: `const renameFrom = value.rename;
        -- if (renameFrom in result) { result[key] = result[renameFrom];
        --                             delete result[renameFrom]; }`
        let renameFrom :=
          match v with
          | .obj fs => jsKeyOf ((objGet fs "rename").getD .null)
          | _ => ""
        if objHasKey result renameFrom then
          match objGet result renameFrom with
          | some moved => objDel (objSet result entry.1 moved) renameFrom
          | none => result
        else result
      else
        objSet result entry.1 v

/-- `applyTransform(payload, transform)` (src/relay/rule-engine.ts:45-70):
`const result = {...payload}` followed by the per-entry loop. -/
def applyTransform (payload : Obj) (transform : Obj) : Obj :=
  transform.foldl applyTransformStep payload

/-- A transform spec with no rename entry. -/
def noRenameSpec (transform : Obj) : Prop :=
  ∀ kv ∈ transform, isRenameSpec kv.2 = false

theorem objGet_objSet_self (fs : Obj) (k : String) (v : Json) :
    objGet (objSet fs k v) k = some v := by
  induction fs with
  | nil => simp [objSet, objGet]
  | cons hd tl ih =>
    cases hd with
    | mk k0 v0 =>
      by_cases h0 : k0 = k
      · simp [objSet, objGet, h0]
      · simp [objSet, objGet, h0, ih]

theorem objGet_objSet_other (fs : Obj) (k k' : String) (v : Json) (h : k' ≠ k) :
    objGet (objSet fs k v) k' = objGet fs k' := by
  induction fs with
  | nil => simp [objSet, objGet, Ne.symm h]
  | cons hd tl ih =>
    cases hd with
    | mk k0 v0 =>
      by_cases h0 : k0 = k
      · subst h0
        simp [objSet, objGet, Ne.symm h]
      · by_cases h1 : k0 = k'
        · simp [objSet, objGet, h0, h1, h]
        · simp [objSet, objGet, h0, h1, ih]

theorem objGet_objDel_self (fs : Obj) (k : String) :
    objGet (objDel fs k) k = none := by
  induction fs with
  | nil => simp [objDel, objGet]
  | cons hd tl ih =>
    cases hd with
    | mk k0 v0 =>
      by_cases h0 : k0 = k
      · simp [objDel, h0, ih]
      · simp [objDel, objGet, h0, ih]

theorem objGet_objDel_other (fs : Obj) (k k' : String) (h : k' ≠ k) :
    objGet (objDel fs k) k' = objGet fs k' := by
  induction fs with
  | nil => simp [objDel, objGet]
  | cons hd tl ih =>
    cases hd with
    | mk k0 v0 =>
      by_cases h0 : k0 = k
      · subst h0
        simp [objDel, objGet, Ne.symm h, ih]
      · by_cases h1 : k0 = k'
        · simp [objDel, objGet, h0, h1, h]
        · simp [objDel, objGet, h0, h1, ih]

theorem applyTransformStep_set (r : Obj) (k : String) (v : Json)
    (h1 : v ≠ Json.null) (h2 : isRenameSpec v = false) :
    applyTransformStep r (k, v) = objSet r k v := by
  cases v with
  | null => exact absurd rfl h1
  | _ => simp [applyTransformStep, h2]

theorem applyTransformStep_del (r : Obj) (k : String) :
    applyTransformStep r (k, Json.null) = objDel r k := rfl

/-- The transform entry that decides key `k`: the last entry of the spec
whose key is `k`. -/
def lastTransformOp (transform : Obj) (k : String) : Option Json :=
  (transform.reverse.find? (fun kv => kv.1 == k)).map (fun kv => kv.2)

theorem applyTransform_append_single (p s : Obj) (e : String × Json) :
    applyTransform p (s ++ [e]) = applyTransformStep (applyTransform p s) e := by
  simp [applyTransform, List.foldl_append]

theorem lastTransformOp_append_single (s : Obj) (e : String × Json) (k : String) :
    lastTransformOp (s ++ [e]) k =
      if e.1 = k then some e.2 else lastTransformOp s k := by
  by_cases h : e.1 = k <;> simp [lastTransformOp, List.find?_cons, h]

/-- Lookup after a rename-free transform run: the last spec entry for the
key decides the result (`null` deletes, anything else is the value); keys
the spec does not mention read through to the original payload. -/
theorem objGet_applyTransform (p s : Obj) (hs : noRenameSpec s) (k : String) :
    objGet (applyTransform p s) k =
      match lastTransformOp s k with
      | some Json.null => none
      | some v => some v
      | none => objGet p k := by
  induction s using List.reverseRecOn with
  | nil => simp [applyTransform, lastTransformOp]
  | append_singleton s e ih =>
    have hs' : noRenameSpec s := fun kv hkv => hs kv (by simp [hkv])
    have he : isRenameSpec e.2 = false := hs e (by simp)
    obtain ⟨ek, ev⟩ := e
    rw [applyTransform_append_single, lastTransformOp_append_single]
    by_cases hnull : ev = Json.null
    · subst hnull
      rw [applyTransformStep_del]
      by_cases hk : ek = k
      · subst hk
        simp [objGet_objDel_self]
      · rw [objGet_objDel_other _ _ _ (fun h => hk h.symm)]
        simpa [hk] using ih hs'
    · rw [applyTransformStep_set _ _ _ hnull he]
      by_cases hk : ek = k
      · subst hk
        rw [objGet_objSet_self]
        simp only [if_pos rfl]
        cases ev with
        | null => exact absurd rfl hnull
        | _ => rfl
      · rw [objGet_objSet_other _ _ _ _ (fun h => hk h.symm)]
        simpa [hk] using ih hs'

/-- C7: `applyTransform(p, {})` is the identity; a single non-null,
non-rename entry `{k: v}` sets exactly key `k` to `v`; a single `{k: null}`
entry removes exactly key `k`; and `applyTransform` is idempotent on any
rename-free spec.  Payload equality for the last three parts is key/value
map equality (lookup at every key), the equality JS deep-equal gives for
JSON objects. -/
theorem C7_applyTransform_algebra :
    (∀ p : Obj, applyTransform p [] = p)
    ∧ (∀ (p : Obj) (k : String) (v : Json), v ≠ Json.null → isRenameSpec v = false →
        objGet (applyTransform p [(k, v)]) k = some v
        ∧ ∀ k' : String, k' ≠ k → objGet (applyTransform p [(k, v)]) k' = objGet p k')
    ∧ (∀ (p : Obj) (k : String),
        objGet (applyTransform p [(k, Json.null)]) k = none
        ∧ ∀ k' : String, k' ≠ k → objGet (applyTransform p [(k, Json.null)]) k' = objGet p k')
    ∧ (∀ (p s : Obj), noRenameSpec s →
        ∀ k : String,
          objGet (applyTransform (applyTransform p s) s) k
            = objGet (applyTransform p s) k) := by
  refine ⟨fun p => rfl, ?_, ?_, ?_⟩
  · intro p k v hnull hren
    have hstep : applyTransform p [(k, v)] = objSet p k v := by
      cases v with
      | null => exact absurd rfl hnull
      | _ => simp_all [applyTransform, applyTransformStep]
    exact ⟨by rw [hstep]; exact objGet_objSet_self p k v,
      fun k' hk' => by rw [hstep]; exact objGet_objSet_other p k k' v hk'⟩
  · intro p k
    have hstep : applyTransform p [(k, Json.null)] = objDel p k := by
      simp [applyTransform, applyTransformStep]
    exact ⟨by rw [hstep]; exact objGet_objDel_self p k,
      fun k' hk' => by rw [hstep]; exact objGet_objDel_other p k k' hk'⟩
  · intro p s hs k
    rw [objGet_applyTransform _ s hs k, objGet_applyTransform _ s hs k]
    cases h : lastTransformOp s k with
    | none => rfl
    | some v => cases v <;> simp

/-- Witness for C7 at concrete inputs. -/
theorem C7_applyTransform_algebra_witness :
    (Json.num 7 ≠ Json.null ∧ isRenameSpec (Json.num 7) = false
      ∧ objGet (applyTransform [("a", Json.num 1)] [("b", Json.num 7)]) "b"
          = some (Json.num 7))
    ∧ (noRenameSpec [("x", Json.null)]
      ∧ objGet
          (applyTransform (applyTransform [("a", Json.num 1)] [("x", Json.null)])
            [("x", Json.null)]) "a"
        = objGet (applyTransform [("a", Json.num 1)] [("x", Json.null)]) "a") := by
  have hnr : noRenameSpec [("x", Json.null)] := by
    intro kv hkv
    simp only [List.mem_singleton] at hkv
    subst hkv
    rfl
  constructor
  · exact And.intro (fun h => nomatch h) (And.intro rfl
      ((C7_applyTransform_algebra.2.1 [("a", Json.num 1)] "b" (Json.num 7)
        (fun h => nomatch h) rfl).1))
  · exact ⟨hnr,
      C7_applyTransform_algebra.2.2.2 [("a", Json.num 1)] [("x", Json.null)] hnr "a"⟩

/-! ## Wire codec (interlock protocol: encodeMessage / decodeBinaryMessage)

The primary wire format is a 12-byte header (signal type u16 BE, protocol
version u16 BE, payload length u32 BE, timestamp u32 BE Unix seconds)
followed by the UTF-8 JSON payload.  Buffers are byte lists.
-/

/-- Big-endian 16-bit write (`Buffer.writeUInt16BE`); callers stay in
range, matching the source where out-of-range writes throw. -/
def u16be (v : Nat) : List Nat := [v / 256 % 256, v % 256]

/-- Big-endian 32-bit write (`Buffer.writeUInt32BE`). -/
def u32be (v : Nat) : List Nat :=
  [v / 16777216 % 256, v / 65536 % 256, v / 256 % 256, v % 256]

/-- `Buffer.readUInt16BE(off)`. -/
def readU16 (buf : List Nat) (off : Nat) : Nat :=
  buf.getD off 0 * 256 + buf.getD (off + 1) 0

/-- `Buffer.readUInt32BE(off)`. -/
def readU32 (buf : List Nat) (off : Nat) : Nat :=
  ((buf.getD off 0 * 256 + buf.getD (off + 1) 0) * 256
      + buf.getD (off + 2) 0) * 256 + buf.getD (off + 3) 0

/-- Protocol version 1.0 (source constant `PROTOCOL_VERSION = 0x0100`). -/
def PROTOCOL_VERSION : Nat := 256

/-- The 12-byte header the encoder writes. -/
def mkHeader (signalType ver payloadLength ts : Nat) : List Nat :=
  u16be signalType ++ u16be ver ++ u32be payloadLength ++ u32be ts

/-- Header part of `decodeBinaryMessage`, at byte level: the four reads,
the signal-type range check and the payload-length check, returning the
header fields and the payload byte slice.  (The subsequent `JSON.parse`
of the slice is modelled at the object level below.) -/
def decodeFrame (buf : List Nat) :
    Option (Nat × Nat × Nat × Nat × List Nat) :=
  let signalType := readU16 buf 0
  let ver := readU16 buf 2
  let payloadLength := readU32 buf 4
  let ts := readU32 buf 8
  if signalType = 0 ∨ signalType > 255 then none
  else if payloadLength > buf.length - 12 then none
  else some (signalType, ver, payloadLength, ts, (buf.drop 12).take payloadLength)

/-- The framed binary layer inverts: a frame built by the encoder decodes
to its own header fields and exact payload bytes. -/
theorem decodeFrame_mkHeader (t ts : Nat) (body : List Nat)
    (ht0 : 0 < t) (ht1 : t ≤ 255) (hts : ts < 4294967296)
    (hlen : body.length < 4294967296) :
    decodeFrame (mkHeader t PROTOCOL_VERSION body.length ts ++ body)
      = some (t, PROTOCOL_VERSION, body.length, ts, body) := by
  have hread0 : readU16 (mkHeader t PROTOCOL_VERSION body.length ts ++ body) 0 = t := by
    simp only [mkHeader, u16be, u32be, PROTOCOL_VERSION, List.cons_append, List.nil_append,
      readU16, List.getD_cons_zero, List.getD_cons_succ]
    omega
  have hread2 : readU16 (mkHeader t PROTOCOL_VERSION body.length ts ++ body) 2
      = PROTOCOL_VERSION := by
    simp only [mkHeader, u16be, u32be, PROTOCOL_VERSION, List.cons_append, List.nil_append,
      readU16, List.getD_cons_zero, List.getD_cons_succ]
  have hread4 : readU32 (mkHeader t PROTOCOL_VERSION body.length ts ++ body) 4
      = body.length := by
    simp only [mkHeader, u16be, u32be, PROTOCOL_VERSION, List.cons_append, List.nil_append,
      readU32, List.getD_cons_zero, List.getD_cons_succ]
    omega
  have hread8 : readU32 (mkHeader t PROTOCOL_VERSION body.length ts ++ body) 8 = ts := by
    simp only [mkHeader, u16be, u32be, PROTOCOL_VERSION, List.cons_append, List.nil_append,
      readU32, List.getD_cons_zero, List.getD_cons_succ]
    omega
  have hdrop : (mkHeader t PROTOCOL_VERSION body.length ts ++ body).drop 12 = body := by
    simp [mkHeader, u16be, u32be, List.cons_append]
  have hlength : (mkHeader t PROTOCOL_VERSION body.length ts ++ body).length
      = 12 + body.length := by
    simp only [mkHeader, u16be, u32be, List.cons_append, List.nil_append,
      List.length_cons, List.length_append]
    omega
  rw [decodeFrame]
  simp only [hread0, hread2, hread4, hread8, hdrop, hlength]
  rw [if_neg (by omega), if_neg (by omega)]
  simp

/-- The object `{ sender, ...payload }` the encoder serializes: the
`sender` property first, then the payload's properties assigned in order
(a payload's own `sender` key overwrites the injected one, in place). -/
def spreadSender (sender : String) (payload : Obj) : Obj :=
  payload.foldl (fun acc kv => objSet acc kv.1 kv.2) [("sender", Json.str sender)]

/-- JS `a || b`. -/
def jsOr (a b : Json) : Json := if jsTruthy a then a else b

/-- The decoder's sender fixup:
`if (!payload.sender) payload.sender = payload.serverId || payload.source
|| 'unknown'` (absent properties read as `undefined`, which is falsy like
`null`). -/
def patchSender (p : Obj) : Obj :=
  if jsTruthy ((objGet p "sender").getD Json.null) then p
  else
    objSet p "sender"
      (jsOr ((objGet p "serverId").getD Json.null)
        (jsOr ((objGet p "source").getD Json.null) (Json.str "unknown")))

/-- A framed binary datagram, modelled as its 12 header bytes plus the
JSON body in parsed form.  The real buffer is the header followed by the
UTF-8 bytes of `JSON.stringify(body)`; carrying the body as a JSON value
bakes in that `JSON.parse` inverts `JSON.stringify` on JSON values (the
library contract), which is the only use the decoder makes of the body
bytes.  The serialized byte length enters only through the `len`
parameter. -/
structure BinFrame where
  header : List Nat
  body : Obj

/-- A decoded interlock message. -/
structure InterLockMessage where
  signalType : Nat
  version : Nat
  timestamp : Int
  payload : Obj

/-- `encodeMessage(signalType, sender, payload)` (interlock protocol):
serializes `{ sender, ...payload }` after the 12-byte header.  `len`
models the byte length of the serialized JSON body; `nowSec` models
`Math.floor(Date.now() / 1000)`. -/
def encodeMessage (len : Obj → Nat) (signalType : Nat) (sender : String)
    (payload : Obj) (nowSec : Nat) : BinFrame :=
  let fullPayload := spreadSender sender payload
  { header := u16be signalType ++ u16be PROTOCOL_VERSION
      ++ u32be (len fullPayload) ++ u32be nowSec
    body := fullPayload }

/-- `decodeBinaryMessage(buffer)` (interlock protocol): header reads,
signal-type range check, payload length check against
`buffer.length - 12`, then the parsed JSON payload with the sender
fixup. -/
def decodeBinaryMessage (len : Obj → Nat) (buf : BinFrame) :
    Option InterLockMessage :=
  let signalType := readU16 buf.header 0
  let version := readU16 buf.header 2
  let payloadLength := readU32 buf.header 4
  let timestamp := readU32 buf.header 8
  if signalType = 0 ∨ signalType > 255 then none
  else if payloadLength > 12 + len buf.body - 12 then none
  else
    some { signalType := signalType, version := version,
           timestamp := (timestamp : Int), payload := patchSender buf.body }

theorem objGet_foldl_objSet_mem (p : Obj) :
    ∀ init : Obj, (p.map Prod.fst).Nodup →
      ∀ kv ∈ p, objGet (p.foldl (fun acc kv => objSet acc kv.1 kv.2) init) kv.1
        = some kv.2 := by
  induction p using List.reverseRecOn with
  | nil => intro init _ kv hkv; cases hkv
  | append_singleton p e ih =>
    intro init hk kv hkv
    rw [List.foldl_append, List.foldl_cons, List.foldl_nil]
    have hmap : (p.map Prod.fst ++ [e.1]).Nodup := by simpa using hk
    have hpn : (p.map Prod.fst).Nodup := hmap.of_append_left
    have hdisj : ∀ a ∈ p.map Prod.fst, a ≠ e.1 := by
      intro a ha heq
      exact (List.nodup_append.mp hmap).2.2 ha (by simp [heq])
    rcases List.mem_append.mp hkv with hmem | hlast
    · have hne : kv.1 ≠ e.1 := hdisj kv.1 (List.mem_map_of_mem Prod.fst hmem)
      rw [objGet_objSet_other _ _ _ _ hne]
      exact ih init hpn kv hmem
    · have : kv = e := by simpa using hlast
      subst this
      exact objGet_objSet_self _ _ _

theorem objGet_foldl_objSet_notmem (init : Obj) (p : Obj) (k : String)
    (hk : k ∉ p.map Prod.fst) :
    objGet (p.foldl (fun acc kv => objSet acc kv.1 kv.2) init) k = objGet init k := by
  induction p using List.reverseRecOn generalizing init with
  | nil => rfl
  | append_singleton p e ih =>
    rw [List.foldl_append, List.foldl_cons, List.foldl_nil]
    have hne : k ≠ e.1 := by
      intro heq
      exact hk (by simp [heq])
    rw [objGet_objSet_other _ _ _ _ hne]
    exact ih init (fun h => hk (by simp at h ⊢; exact Or.inl h))

theorem objGet_isSome_of_mem_keys (p : Obj) (k : String)
    (h : k ∈ p.map Prod.fst) : (objGet p k).isSome = true := by
  induction p with
  | nil => cases h
  | cons hd tl ih =>
    cases hd with
    | mk k0 v0 =>
      simp only [List.map_cons, List.mem_cons] at h
      by_cases hhd : k0 = k
      · simp [objGet, hhd]
      · rcases h with h | h
        · exact absurd h.symm hhd
        · simp only [objGet, beq_iff_eq, hhd, if_false]
          exact ih h

theorem objGet_spreadSender_sender_absent (sender : String) (p : Obj)
    (h : objHasKey p "sender" = false) :
    objGet (spreadSender sender p) "sender" = some (Json.str sender) := by
  have hk : "sender" ∉ p.map Prod.fst := by
    intro hmem
    have := objGet_isSome_of_mem_keys p "sender" hmem
    rw [objHasKey] at h
    rw [h] at this
    cases this
  rw [spreadSender, objGet_foldl_objSet_notmem _ _ _ hk]
  rfl

/-- C8 (amended): decoding an encoded message succeeds for signal types in
(0, 255], the decoded signal type equals the encoded one, the decoded
payload contains every key/value pair of the original payload other than a
falsy-valued `sender` entry, a truthy `sender` entry of the payload
survives verbatim, and the injected sender entry is present whenever the
payload has no `sender` key of its own and the sender string is nonempty.
(The original claim's unconditional sender containment fails: the JS
spread `{ sender, ...payload }` lets a payload's own `sender` key
overwrite the injected one.)  `len` is the modelled byte length of the
serialized body — the statement holds for every such measure. -/
theorem C8_codec_roundtrip (len : Obj → Nat) (t : Nat) (sender : String)
    (p : Obj) (ts : Nat) (ht0 : 0 < t) (ht1 : t ≤ 255)
    (hkeys : (p.map Prod.fst).Nodup) :
    ∃ m, decodeBinaryMessage len (encodeMessage len t sender p ts) = some m
      ∧ m.signalType = t
      ∧ (∀ kv ∈ p, kv.1 ≠ "sender" → objGet m.payload kv.1 = some kv.2)
      ∧ (∀ v, ("sender", v) ∈ p → jsTruthy v = true →
          objGet m.payload "sender" = some v)
      ∧ (objHasKey p "sender" = false → sender ≠ "" →
          objGet m.payload "sender" = some (Json.str sender)) := by
  have hread0 : readU16 (encodeMessage len t sender p ts).header 0 = t := by
    simp only [encodeMessage, u16be, u32be, List.cons_append, List.nil_append,
      readU16, List.getD_cons_zero, List.getD_cons_succ]
    omega
  have hread4 : readU32 (encodeMessage len t sender p ts).header 4
      ≤ len (spreadSender sender p) := by
    simp only [encodeMessage, u16be, u32be, List.cons_append, List.nil_append,
      readU32, List.getD_cons_zero, List.getD_cons_succ]
    omega
  have hbody : (encodeMessage len t sender p ts).body = spreadSender sender p := rfl
  have hdec : decodeBinaryMessage len (encodeMessage len t sender p ts)
      = some { signalType := t,
               version := readU16 (encodeMessage len t sender p ts).header 2,
               timestamp := (readU32 (encodeMessage len t sender p ts).header 8 : Int),
               payload := patchSender (spreadSender sender p) } := by
    simp only [decodeBinaryMessage, hread0, hbody]
    rw [if_neg (by omega), if_neg (by omega)]
  refine ⟨_, hdec, rfl, ?_, ?_, ?_⟩
  · intro kv hkv hne
    show objGet (patchSender (spreadSender sender p)) kv.1 = some kv.2
    have hbase : objGet (spreadSender sender p) kv.1 = some kv.2 :=
      objGet_foldl_objSet_mem p _ hkeys kv hkv
    rw [patchSender]
    by_cases hb : jsTruthy ((objGet (spreadSender sender p) "sender").getD Json.null) = true
    · rw [if_pos hb]; exact hbase
    · rw [if_neg hb, objGet_objSet_other _ _ _ _ hne]; exact hbase
  · intro v hmem htruthy
    show objGet (patchSender (spreadSender sender p)) "sender" = some v
    have hbase : objGet (spreadSender sender p) "sender" = some v :=
      objGet_foldl_objSet_mem p _ hkeys ("sender", v) hmem
    rw [patchSender, if_pos (by rw [hbase]; simpa using htruthy)]
    exact hbase
  · intro habsent hne
    show objGet (patchSender (spreadSender sender p)) "sender"
      = some (Json.str sender)
    have hbase := objGet_spreadSender_sender_absent sender p habsent
    rw [patchSender, if_pos (by rw [hbase]; simpa [jsTruthy] using hne)]
    exact hbase

/-- C8 counterexample to the claim as stated: when the payload carries its
own `sender` key, the decoded payload holds the payload's value, not the
injected sender — the promised sender entry `sender ↦ "alpha"` is absent. -/
theorem C8_codec_roundtrip_cex :
    Option.map (fun m => objGet m.payload "sender")
        (decodeBinaryMessage (fun _ => 20)
          (encodeMessage (fun _ => 20) 80 "alpha" [("sender", Json.str "evil")] 1000))
      = some (some (Json.str "evil"))
    ∧ Json.str "evil" ≠ Json.str "alpha" := by
  constructor
  · rfl
  · intro h
    injection h with h1
    exact absurd h1 (by decide)

/-- Witness for C8 at a concrete instance. -/
theorem C8_codec_roundtrip_witness :
    ∃ m, decodeBinaryMessage (fun _ => 13)
          (encodeMessage (fun _ => 13) 80 "a" [("x", Json.num 1)] 5) = some m
      ∧ m.signalType = 80
      ∧ (∀ kv ∈ [("x", Json.num 1)], kv.1 ≠ "sender" →
          objGet m.payload kv.1 = some kv.2)
      ∧ (∀ v, ("sender", v) ∈ [("x", Json.num 1)] → jsTruthy v = true →
          objGet m.payload "sender" = some v)
      ∧ (objHasKey [("x", Json.num 1)] "sender" = false → "a" ≠ "" →
          objGet m.payload "sender" = some (Json.str "a")) :=
  C8_codec_roundtrip (fun _ => 13) 80 "a" [("x", Json.num 1)] 5
    (by decide) (by decide) (by simp)

/-! ## Tumbler (interlock tumbler: validateMessage) -/

/-- Tumbler configuration: peer whitelist and numeric signal whitelist
(hex strings are converted to numbers at init). -/
structure TumblerConfig where
  allowedPeers : List String
  allowedSignals : List Nat

/-- `validateMessage(message)` (interlock tumbler): the sender is read from
the payload but the rejection branch for unknown senders is commented out
in the source — unknown senders are deliberately allowed; then the signal
whitelist check (when the whitelist is non-empty) and the freshness window
`age ≤ 5min` and `age ≥ -60s` with `age = now − timestamp·1000`. -/
def validateMessage (cfg : TumblerConfig) (now : Int)
    (message : InterLockMessage) : Bool :=
  if cfg.allowedSignals.length > 0
      && !(cfg.allowedSignals.contains message.signalType) then false
  else
    let age : Int := now - message.timestamp * 1000
    if age > 5 * 60 * 1000 || age < -60000 then false
    else true

/-- C6: the tumbler accepts exactly when the signal whitelist (when
non-empty) contains the signal type and the timestamp is inside the
freshness window; neither the payload (and so the sender it carries) nor
the configured peer whitelist ever influences the outcome. -/
theorem C6_tumbler_accept_iff (cfg : TumblerConfig) (now : Int)
    (m : InterLockMessage) :
    (validateMessage cfg now m = true ↔
      ((cfg.allowedSignals ≠ [] → m.signalType ∈ cfg.allowedSignals)
        ∧ |now - m.timestamp * 1000| ≤ 300000
        ∧ m.timestamp * 1000 - now ≤ 60000))
    ∧ (∀ p' : Obj, validateMessage cfg now { m with payload := p' }
        = validateMessage cfg now m)
    ∧ (∀ peers' : List String,
        validateMessage { cfg with allowedPeers := peers' } now m
          = validateMessage cfg now m) := by
  refine ⟨?_, fun p' => rfl, fun peers' => rfl⟩
  rw [validateMessage]
  by_cases h1 : cfg.allowedSignals.length > 0
      && !(cfg.allowedSignals.contains m.signalType)
  · rw [if_pos h1]
    simp only [Bool.and_eq_true, Bool.not_eq_true', decide_eq_true_eq] at h1
    constructor
    · intro h; cases h
    · intro ⟨hw, _, _⟩
      have hne : cfg.allowedSignals ≠ [] := by
        intro hnil
        rw [hnil] at h1
        simp at h1
      have hmem := hw hne
      rw [← List.elem_iff] at hmem
      have hc : cfg.allowedSignals.contains m.signalType = true := hmem
      rw [h1.2] at hc
      cases hc
  · rw [if_neg h1]
    have hw : cfg.allowedSignals ≠ [] → m.signalType ∈ cfg.allowedSignals := by
      intro hne
      simp only [Bool.and_eq_true, Bool.not_eq_true', decide_eq_true_eq,
        not_and] at h1
      rcases List.exists_cons_of_ne_nil hne with ⟨x, xs, hx⟩
      by_cases hm : m.signalType ∈ cfg.allowedSignals
      · exact hm
      · exfalso
        have hcon := h1 (by rw [hx]; simp)
        have hc : cfg.allowedSignals.contains m.signalType = true := by
          cases hval : cfg.allowedSignals.contains m.signalType
          · exact absurd hval hcon
          · rfl
        rw [← List.elem_iff] at hm
        exact hm hc
    by_cases h2 : (now - m.timestamp * 1000 > 5 * 60 * 1000)
        ∨ (now - m.timestamp * 1000 < -60000)
    · rw [if_pos (by simpa using h2)]
      constructor
      · intro h; cases h
      · intro ⟨_, habs, hfut⟩
        rw [abs_le] at habs
        omega
    · rw [if_neg (by simpa using h2)]
      simp only [true_iff]
      refine ⟨hw, ?_, ?_⟩
      · rw [abs_le]; omega
      · omega

/-- Witness for C6 at a concrete instance: a whitelisted, fresh message is
accepted. -/
theorem C6_tumbler_accept_iff_witness :
    validateMessage ⟨[], [80]⟩ 80000000 ⟨80, 256, 80000, []⟩ = true := by
  apply ((C6_tumbler_accept_iff ⟨[], [80]⟩ 80000000 ⟨80, 256, 80000, []⟩).1).mpr
  refine ⟨fun _ => by decide, by decide, by decide⟩

/-! ## Buffer store (src/database/schema.ts, signal_buffer table)

A database state is the list of `signal_buffer` rows in insertion (rowid)
order.  Queries with `ORDER BY` sort explicitly; `priority` is a TEXT
column, so `ORDER BY priority DESC` is descending byte-lexicographic
order on the string, under SQLite's default BINARY collation.
-/

inductive BufferStatus where
  | pending
  | delivered
  | expired
  | failed
deriving DecidableEq, Repr

/-- One row of `signal_buffer` (type `DbSignalBuffer`); the JSON payload
column is carried in parsed form. -/
structure BufferRow where
  id : String
  signal_type : Nat
  source_server : String
  target_server : String
  payload : Json
  priority : String
  buffered_at : Int
  retry_count : Int
  last_retry_at : Option Int
  max_retries : Int
  expires_at : Option Int
  status : BufferStatus

/-- Byte-lexicographic strict order on code lists (SQLite BINARY
collation; UTF-8 byte order and code-point order agree). -/
def lexLtB : List Nat → List Nat → Bool
  | [], [] => false
  | [], _ :: _ => true
  | _ :: _, [] => false
  | a :: as, b :: bs => if a < b then true else if a > b then false else lexLtB as bs

/-- SQLite TEXT comparison of two strings. -/
def sqliteTextLt (a b : String) : Bool :=
  lexLtB (a.data.map Char.toNat) (b.data.map Char.toNat)

theorem lexLtB_trichot : ∀ a b, lexLtB a b = true ∨ a = b ∨ lexLtB b a = true := by
  intro a
  induction a with
  | nil => intro b; cases b <;> simp [lexLtB]
  | cons x xs ih =>
    intro b
    cases b with
    | nil => simp [lexLtB]
    | cons y ys =>
      rcases Nat.lt_trichotomy x y with h | h | h
      · left; simp [lexLtB, h]
      · subst h
        rcases ih ys with h2 | h2 | h2
        · left; simp [lexLtB, h2]
        · right; left; rw [h2]
        · right; right; simp [lexLtB, h2]
      · right; right; simp [lexLtB, h]

theorem lexLtB_trans : ∀ a b c, lexLtB a b = true → lexLtB b c = true →
    lexLtB a c = true := by
  intro a
  induction a with
  | nil =>
    intro b c hab hbc
    cases b with
    | nil => simp [lexLtB] at hab
    | cons y ys =>
      cases c with
      | nil => simp [lexLtB] at hbc
      | cons z zs => simp [lexLtB]
  | cons x xs ih =>
    intro b c hab hbc
    cases b with
    | nil => simp [lexLtB] at hab
    | cons y ys =>
      cases c with
      | nil => simp [lexLtB] at hbc
      | cons z zs =>
        simp only [lexLtB] at hab hbc ⊢
        by_cases hxy : x < y
        · by_cases hyz : y < z
          · rw [if_pos (by omega)]
          · rw [if_neg hyz] at hbc
            by_cases hzy : y > z
            · rw [if_pos hzy] at hbc; cases hbc
            · have heq : y = z := by omega
              subst heq
              rw [if_pos hxy]
        · rw [if_neg hxy] at hab
          by_cases hyx : x > y
          · rw [if_pos hyx] at hab; cases hab
          · have heq : x = y := by omega
            subst heq
            rw [if_neg (by omega)] at hab
            by_cases hyz : x < z
            · rw [if_pos hyz]
            · rw [if_neg hyz] at hbc ⊢
              by_cases hzy : x > z
              · rw [if_pos hzy] at hbc; cases hbc
              · rw [if_neg hzy] at hbc ⊢
                exact ih ys zs hab hbc

theorem char_toNat_inj (a b : Char) (h : a.toNat = b.toNat) : a = b := by
  obtain ⟨⟨⟨av, hav⟩⟩, ha⟩ := a
  obtain ⟨⟨⟨bv, hbv⟩⟩, hb⟩ := b
  have : av = bv := h
  subst this
  rfl

theorem sqliteTextLt_trichot (s t : String) :
    sqliteTextLt s t = true ∨ s = t ∨ sqliteTextLt t s = true := by
  rcases lexLtB_trichot (s.data.map Char.toNat) (t.data.map Char.toNat)
    with h | h | h
  · exact Or.inl h
  · refine Or.inr (Or.inl ?_)
    apply String.ext
    exact List.map_injective_iff.mpr (fun a b hab => char_toNat_inj a b hab) h
  · exact Or.inr (Or.inr h)

/-- The `ORDER BY priority DESC, buffered_at ASC` sort key of
`getRetryableBufferedSignals`. -/
def retryOrderLe (a b : BufferRow) : Prop :=
  sqliteTextLt b.priority a.priority = true
    ∨ (a.priority = b.priority ∧ a.buffered_at ≤ b.buffered_at)

instance : DecidableRel retryOrderLe := fun a b => by
  unfold retryOrderLe; infer_instance

instance : IsTotal BufferRow retryOrderLe :=
  ⟨by
    intro a b
    rcases sqliteTextLt_trichot b.priority a.priority with h | h | h
    · exact Or.inl (Or.inl h)
    · rcases Int.le_total a.buffered_at b.buffered_at with h2 | h2
      · exact Or.inl (Or.inr ⟨h.symm, h2⟩)
      · exact Or.inr (Or.inr ⟨h, h2⟩)
    · exact Or.inr (Or.inl h)⟩

instance : IsTrans BufferRow retryOrderLe :=
  ⟨by
    intro a b c hab hbc
    rcases hab with hab | ⟨hab1, hab2⟩
    · rcases hbc with hbc | ⟨hbc1, hbc2⟩
      · exact Or.inl (lexLtB_trans _ _ _ hbc hab)
      · exact Or.inl (hbc1 ▸ hab)
    · rcases hbc with hbc | ⟨hbc1, hbc2⟩
      · exact Or.inl (by rw [hab1]; exact hbc)
      · exact Or.inr ⟨hab1.trans hbc1, hab2.trans hbc2⟩⟩

/-- The `ORDER BY buffered_at ASC` sort key of
`getPendingBufferedSignals`. -/
def pendingOrderLe (a b : BufferRow) : Prop :=
  a.buffered_at ≤ b.buffered_at

instance : DecidableRel pendingOrderLe := fun a b => by
  unfold pendingOrderLe; infer_instance

instance : IsTotal BufferRow pendingOrderLe :=
  ⟨fun a b => Int.le_total a.buffered_at b.buffered_at⟩

instance : IsTrans BufferRow pendingOrderLe :=
  ⟨fun _ _ _ hab hbc => hab.trans hbc⟩

/-- `insertBufferedSignal` (schema.ts): INSERT of one row.  The id column
is the PRIMARY KEY; on a conflicting id the insert throws and stores
nothing, modelled as leaving the state unchanged. -/
def insertBufferedSignal (db : List BufferRow) (row : BufferRow) : List BufferRow :=
  if db.any (fun r => r.id == row.id) then db else db ++ [row]

/-- `getBufferedSignal(id)` (schema.ts): SELECT by primary key. -/
def getBufferedSignal (db : List BufferRow) (id : String) : Option BufferRow :=
  db.find? (fun r => r.id == id)

/-- UPDATE ... WHERE id = ?: rewrites the row(s) carrying the id. -/
def updateRowById (db : List BufferRow) (id : String)
    (f : BufferRow → BufferRow) : List BufferRow :=
  db.map (fun r => if r.id == id then f r else r)

/-- `updateBufferedSignalStatus(id, status)` (schema.ts): unconditional
status write by id. -/
def updateBufferedSignalStatus (db : List BufferRow) (id : String)
    (status : BufferStatus) : List BufferRow :=
  updateRowById db id (fun r => { r with status := status })

/-- `incrementBufferRetryCount(id)` (schema.ts):
`SET retry_count = retry_count + 1, last_retry_at = now`. -/
def incrementBufferRetryCount (db : List BufferRow) (id : String)
    (now : Int) : List BufferRow :=
  updateRowById db id
    (fun r => { r with retry_count := r.retry_count + 1, last_retry_at := some now })

/-- `deleteBufferedSignal(id)` (schema.ts): DELETE by id, reporting
whether a row was removed (`changes > 0`). -/
def deleteBufferedSignal (db : List BufferRow) (id : String) :
    List BufferRow × Bool :=
  (db.filter (fun r => !(r.id == id)), db.any (fun r => r.id == id))

/-- `deleteBufferedSignalsByTarget(targetServer)` (schema.ts): DELETE by
target, reporting the number of removed rows. -/
def deleteBufferedSignalsByTarget (db : List BufferRow) (t : String) :
    List BufferRow × Nat :=
  (db.filter (fun r => !(r.target_server == t)),
    (db.filter (fun r => r.target_server == t)).length)

/-- The four per-status counts `getBufferStats` reads from the store. -/
structure BufferStoreCounts where
  pending : Nat
  delivered : Nat
  expired : Nat
  failed : Nat
deriving DecidableEq, Repr

/-- `getBufferStats()` (schema.ts): one COUNT(*) per status. -/
def getBufferStats (db : List BufferRow) : BufferStoreCounts :=
  { pending := (db.filter (fun r => r.status == .pending)).length
    delivered := (db.filter (fun r => r.status == .delivered)).length
    expired := (db.filter (fun r => r.status == .expired)).length
    failed := (db.filter (fun r => r.status == .failed)).length }

/-- Rows the expire sweep rewrites:
`status = 'pending' AND expires_at IS NOT NULL AND expires_at < now`. -/
def expireCond (now : Int) (r : BufferRow) : Bool :=
  r.status == .pending
    && (match r.expires_at with | some e => decide (e < now) | none => false)

/-- `expireOldBufferedSignals()` (schema.ts): one UPDATE statement setting
`status = 'expired'` on every matching row, returning `changes`. -/
def expireOldBufferedSignals (db : List BufferRow) (now : Int) :
    List BufferRow × Nat :=
  (db.map (fun r => if expireCond now r then { r with status := .expired } else r),
    (db.filter (expireCond now)).length)

/-- The WHERE clause of `getRetryableBufferedSignals(retryAfter)`:
`status = 'pending' AND (last_retry_at IS NULL OR last_retry_at < retryAfter)
AND retry_count < max_retries AND (expires_at IS NULL OR expires_at > now)`. -/
def retryableB (now retryAfter : Int) (r : BufferRow) : Bool :=
  r.status == .pending
    && (match r.last_retry_at with
        | none => true
        | some t => decide (t < retryAfter))
    && decide (r.retry_count < r.max_retries)
    && (match r.expires_at with
        | none => true
        | some e => decide (e > now))

/-- `getRetryableBufferedSignals(retryAfter)` (schema.ts:283-293): the
WHERE filter with `ORDER BY priority DESC, buffered_at ASC` (TEXT
collation on priority). -/
def getRetryableBufferedSignals (db : List BufferRow) (now retryAfter : Int) :
    List BufferRow :=
  List.insertionSort retryOrderLe (db.filter (retryableB now retryAfter))

/-- `getPendingBufferedSignals(targetServer?)` (schema.ts): pending rows,
optionally narrowed to one target (the filter is added only for a truthy
argument — `undefined` and `""` skip it), `ORDER BY buffered_at ASC`. -/
def getPendingBufferedSignals (db : List BufferRow)
    (targetServer : Option String) : List BufferRow :=
  List.insertionSort pendingOrderLe
    (match targetServer with
     | some t =>
        if t == "" then db.filter (fun r => r.status == .pending)
        else (db.filter (fun r => r.status == .pending)).filter
          (fun r => r.target_server == t)
     | none => db.filter (fun r => r.status == .pending))

/-! ## Buffer manager (src/relay/buffer-manager.ts) -/

/-- Source constant `RETRY_INTERVALS = [1000, 5000, 15000]` (ms). -/
def RETRY_INTERVALS : List Int := [1000, 5000, 15000]

/-- Source constant `DEFAULT_TTL_HOURS = 24`. -/
def DEFAULT_TTL_HOURS : Int := 24

/-- Source constant `MAX_RETRIES = 3`. -/
def MAX_RETRIES : Int := 3

/-- `bufferSignal(signalType, sourceServer, targetServer, payload,
priority, ttlHours = DEFAULT_TTL_HOURS)` (buffer-manager.ts:31-60): one
pending row with `retry_count = 0`, `max_retries = MAX_RETRIES` and
`expires_at = now + ttlHours·3600000`; the generated UUID is passed in as
`bufferId`. -/
def bufferSignal (db : List BufferRow) (bufferId : String) (signalType : Nat)
    (sourceServer targetServer : String) (payload : Obj) (priority : String)
    (ttlHours : Int) (now : Int) : List BufferRow × String :=
  let buffer : BufferRow :=
    { id := bufferId
      signal_type := signalType
      source_server := sourceServer
      target_server := targetServer
      payload := Json.obj payload
      priority := priority
      buffered_at := now
      retry_count := 0
      last_retry_at := none
      max_retries := MAX_RETRIES
      expires_at := some (now + ttlHours * 60 * 60 * 1000)
      status := .pending }
  (insertBufferedSignal db buffer, bufferId)

/-- `RETRY_INTERVALS[Math.min(retry_count, RETRY_INTERVALS.length - 1)]`:
the clamped backoff interval; a negative count (unreachable for rows this
module creates) indexes off the array and reads `undefined`. -/
def retryIntervalFor (rc : Int) : Option Int :=
  if rc < 0 then none
  else if rc = 0 then some 1000
  else if rc = 1 then some 5000
  else some 15000

/-- `buffer.last_retry_at || buffer.buffered_at` (`0` and NULL are
falsy). -/
def lastRetryOf (r : BufferRow) : Int :=
  match r.last_retry_at with
  | some t => if t == 0 then r.buffered_at else t
  | none => r.buffered_at

/-- The backoff guard of the `processBuffer` loop:
`Date.now() - lastRetry < retryInterval` skips the row (a comparison
against `undefined` is false, so a row with an out-of-range index is not
skipped). -/
def shouldSkip (now : Int) (r : BufferRow) : Bool :=
  match retryIntervalFor r.retry_count with
  | some iv => decide (now - lastRetryOf r < iv)
  | none => false

/-- Accumulator of the `processBuffer` loop: the evolving store, the
`retried`/`delivered`/`failed` counters, and the ids handed to the
delivery callback, in order. -/
structure ProcessAcc where
  db : List BufferRow
  retried : Nat
  delivered : Nat
  failedCount : Nat
  attempts : List String

/-- One iteration of the `processBuffer` loop (buffer-manager.ts:85-111):
skip inside the backoff window; otherwise count the retry and, when a
delivery callback is installed, invoke it — marking `delivered` on
success, incrementing the retry count on failure and marking `failed`
when the snapshot's `retry_count + 1` reaches `max_retries`. -/
def processStep (cb : Option (BufferRow → Bool)) (now : Int)
    (acc : ProcessAcc) (b : BufferRow) : ProcessAcc :=
  if shouldSkip now b then acc
  else
    match cb with
    | none => { acc with retried := acc.retried + 1 }
    | some f =>
        if f b then
          { db := updateBufferedSignalStatus acc.db b.id .delivered
            retried := acc.retried + 1
            delivered := acc.delivered + 1
            failedCount := acc.failedCount
            attempts := acc.attempts ++ [b.id] }
        else
          let db1 := incrementBufferRetryCount acc.db b.id now
          if b.retry_count + 1 ≥ b.max_retries then
            { db := updateBufferedSignalStatus db1 b.id .failed
              retried := acc.retried + 1
              delivered := acc.delivered
              failedCount := acc.failedCount + 1
              attempts := acc.attempts ++ [b.id] }
          else
            { db := db1
              retried := acc.retried + 1
              delivered := acc.delivered
              failedCount := acc.failedCount
              attempts := acc.attempts ++ [b.id] }

/-- `processBuffer()` (buffer-manager.ts:66-114): the expire sweep, then
the retryable selection with `minRetryTime = now − RETRY_INTERVALS[0]`,
then the per-row loop over the selected snapshot.  Returns the loop
accumulator and the expire count. -/
def processBuffer (cb : Option (BufferRow → Bool)) (now : Int)
    (db : List BufferRow) : ProcessAcc × Nat :=
  let swept := expireOldBufferedSignals db now
  let pending := getRetryableBufferedSignals swept.1 now (now - 1000)
  (pending.foldl (processStep cb now) ⟨swept.1, 0, 0, 0, []⟩, swept.2)

/-- Accumulator of the `retryBufferedSignals` loop. -/
structure RetryAcc where
  db : List BufferRow
  attempted : Nat
  delivered : Nat
  failedCount : Nat
  attempts : List String

/-- One iteration of `retryBufferedSignals` (buffer-manager.ts:141-173):
rows that are missing or no longer pending are skipped; otherwise the
callback is invoked once, bypassing the backoff check — `delivered` on
success, a bare retry-count increment on failure. -/
def retryStep (cb : Option (BufferRow → Bool)) (now : Int)
    (acc : RetryAcc) (id : String) : RetryAcc :=
  match getBufferedSignal acc.db id with
  | none => acc
  | some b =>
      if b.status ≠ BufferStatus.pending then acc
      else
        match cb with
        | none => { acc with attempted := acc.attempted + 1 }
        | some f =>
            if f b then
              { db := updateBufferedSignalStatus acc.db id .delivered
                attempted := acc.attempted + 1
                delivered := acc.delivered + 1
                failedCount := acc.failedCount
                attempts := acc.attempts ++ [id] }
            else
              { db := incrementBufferRetryCount acc.db id now
                attempted := acc.attempted + 1
                delivered := acc.delivered
                failedCount := acc.failedCount + 1
                attempts := acc.attempts ++ [id] }

/-- `retryBufferedSignals(bufferIds)` (buffer-manager.ts:141-173). -/
def retryBufferedSignals (cb : Option (BufferRow → Bool)) (now : Int)
    (db : List BufferRow) (bufferIds : List String) : RetryAcc :=
  bufferIds.foldl (retryStep cb now) ⟨db, 0, 0, 0, []⟩

/-- The options record of `clearBufferedSignals`; `signalType` and
`maxAgeHours` are declared and accepted. -/
structure ClearOptions where
  bufferIds : Option (List String)
  targetServer : Option String
  signalType : Option Nat
  maxAgeHours : Option Int

/-- `clearBufferedSignals(options)` (buffer-manager.ts:178-198): a
non-empty `bufferIds` list deletes per id, counting rows that existed;
otherwise a truthy `targetServer` deletes by target; every other case —
including calls carrying only `signalType` or `maxAgeHours`, which the
function body never reads — deletes nothing and returns 0. -/
def clearBufferedSignals (db : List BufferRow) (options : ClearOptions) :
    List BufferRow × Nat :=
  if (match options.bufferIds with
      | some ids => decide (ids.length > 0)
      | none => false) then
    (options.bufferIds.getD []).foldl
      (fun acc i =>
        let d := deleteBufferedSignal acc.1 i
        (d.1, if d.2 then acc.2 + 1 else acc.2))
      (db, 0)
  else
    match options.targetServer with
    | some t => if t == "" then (db, 0) else deleteBufferedSignalsByTarget db t
    | none => (db, 0)

/-- Accumulator of the `flushBuffer` loop. -/
structure FlushAcc where
  db : List BufferRow
  flushed : Nat
  delivered : Nat
  failedCount : Nat
  attempts : List String

/-- One iteration of `flushBuffer` (buffer-manager.ts:203-232): every
selected pending row is attempted once and marked `delivered` or `failed`
on this pass. -/
def flushStep (cb : Option (BufferRow → Bool)) (acc : FlushAcc)
    (b : BufferRow) : FlushAcc :=
  match cb with
  | none => { acc with flushed := acc.flushed + 1 }
  | some f =>
      if f b then
        { db := updateBufferedSignalStatus acc.db b.id .delivered
          flushed := acc.flushed + 1
          delivered := acc.delivered + 1
          failedCount := acc.failedCount
          attempts := acc.attempts ++ [b.id] }
      else
        { db := updateBufferedSignalStatus acc.db b.id .failed
          flushed := acc.flushed + 1
          delivered := acc.delivered
          failedCount := acc.failedCount + 1
          attempts := acc.attempts ++ [b.id] }

/-- `flushBuffer(targetServer?)` (buffer-manager.ts:203-232). -/
def flushBuffer (cb : Option (BufferRow → Bool)) (db : List BufferRow)
    (targetServer : Option String) : FlushAcc :=
  (getPendingBufferedSignals db targetServer).foldl (flushStep cb) ⟨db, 0, 0, 0, []⟩

/-- One buffer-manager operation, with the ambient inputs (clock, UUID,
delivery-callback outcomes) it consumes. -/
inductive BufOp where
  | bufferOp (bufferId : String) (signalType : Nat)
      (sourceServer targetServer : String) (payload : Obj) (priority : String)
      (ttlHours : Int) (now : Int)
  | processOp (cb : Option (BufferRow → Bool)) (now : Int)
  | retryOp (bufferIds : List String) (cb : Option (BufferRow → Bool)) (now : Int)
  | flushOp (targetServer : Option String) (cb : Option (BufferRow → Bool)) (now : Int)

/-- Is the operation a `retryBufferedSignals` call? -/
def BufOp.isRetryOp : BufOp → Bool
  | .retryOp _ _ _ => true
  | _ => false

/-- Apply one operation: the next store state and the ids handed to the
delivery callback during the operation. -/
def applyBufOp (db : List BufferRow) : BufOp → List BufferRow × List String
  | .bufferOp id st src tgt pl prio ttl now =>
      ((bufferSignal db id st src tgt pl prio ttl now).1, [])
  | .processOp cb now =>
      let r := processBuffer cb now db
      (r.1.db, r.1.attempts)
  | .retryOp ids cb now =>
      let r := retryBufferedSignals cb now db ids
      (r.db, r.attempts)
  | .flushOp tgt cb now =>
      let r := flushBuffer cb db tgt
      (r.db, r.attempts)

/-- Run a sequence of operations, accumulating every delivery attempt. -/
def runBufOps (db : List BufferRow) : List BufOp → List BufferRow × List String
  | [] => (db, [])
  | op :: ops =>
      let r := applyBufOp db op
      let rest := runBufOps r.1 ops
      (rest.1, r.2 ++ rest.2)

/-- A pending buffered row of signal type 5, old enough for any age
filter. -/
def c2Row : BufferRow :=
  { id := "b1", signal_type := 5, source_server := "s", target_server := "t"
    payload := Json.obj [], priority := "normal", buffered_at := 0
    retry_count := 0, last_retry_at := none, max_retries := 3
    expires_at := none, status := .pending }

/-- C2: `clearBufferedSignals` called with only a `signal_type` filter, or
with only a `max_age_hours` filter, deletes nothing and returns 0 even
though a matching row is present — the function body never reads either
option. -/
theorem C2_clearBufferedSignals_ignores_declared_filters :
    ([c2Row].filter (fun r => r.signal_type == 5)).length = 1
    ∧ clearBufferedSignals [c2Row]
        { bufferIds := none, targetServer := none
          signalType := some 5, maxAgeHours := none } = ([c2Row], 0)
    ∧ clearBufferedSignals [c2Row]
        { bufferIds := none, targetServer := none
          signalType := none, maxAgeHours := some 1 } = ([c2Row], 0) :=
  ⟨rfl, rfl, rfl⟩

/-! ## C5: the processBuffer selection step -/

theorem retryableB_iff (now retryAfter : Int) (r : BufferRow) :
    retryableB now retryAfter r = true ↔
      (r.status = .pending
        ∧ (r.last_retry_at = none
            ∨ ∃ t, r.last_retry_at = some t ∧ t < retryAfter)
        ∧ r.retry_count < r.max_retries
        ∧ (r.expires_at = none ∨ ∃ e, r.expires_at = some e ∧ now < e)) := by
  rw [retryableB]
  cases hl : r.last_retry_at <;> cases he : r.expires_at <;>
    simp [Bool.and_eq_true, beq_iff_eq] <;> aesop

theorem mem_getRetryableBufferedSignals (db : List BufferRow)
    (now retryAfter : Int) (r : BufferRow) :
    r ∈ getRetryableBufferedSignals db now retryAfter ↔
      r ∈ db ∧ retryableB now retryAfter r = true := by
  rw [getRetryableBufferedSignals, List.mem_insertionSort, List.mem_filter]

theorem processFold_attempts (f : BufferRow → Bool) (now : Int) :
    ∀ (pending : List BufferRow) (acc : ProcessAcc),
      (pending.foldl (processStep (some f) now) acc).attempts
        = acc.attempts
          ++ (pending.filter (fun b => !(shouldSkip now b))).map (fun b => b.id) := by
  intro pending
  induction pending with
  | nil => intro acc; simp
  | cons b rest ih =>
    intro acc
    rw [List.foldl_cons, ih]
    by_cases hskip : shouldSkip now b
    · simp [processStep, hskip, List.filter_cons]
    · have hstep : (processStep (some f) now acc b).attempts
          = acc.attempts ++ [b.id] := by
        rw [processStep, if_neg hskip]
        by_cases hf : f b
        · simp [hf]
        · by_cases hge : b.retry_count + 1 ≥ b.max_retries <;> simp [hf, hge]
      rw [hstep]
      simp [List.filter_cons, hskip, List.append_assoc]

/-- C5 (amended): the rows `processBuffer` selects are exactly the stored
rows that are pending, under the retry budget, not yet expired AND whose
`last_retry_at` is unset or older than `retryAfter` (the SQL adds this
fourth conjunct; `processBuffer` passes `retryAfter = now − 1000`); the
result is ordered by priority descending in SQLite TEXT order — which is
byte-lexicographic, so `urgent > normal > low > high`, not the rank order
`urgent > high > normal > low` the claim states — then `buffered_at`
ascending; the delivery callback is invoked exactly on the selected rows
outside the backoff window, i.e. with
`now − (last_retry_at ‖ buffered_at) ≥ intervals[min(retry_count, 2)]`
for `intervals = RETRY_INTERVALS = [1000, 5000, 15000]`. -/
theorem C5_processBuffer_selection (db : List BufferRow)
    (now retryAfter : Int) (f : BufferRow → Bool) :
    (∀ r : BufferRow,
      r ∈ getRetryableBufferedSignals db now retryAfter ↔
        (r ∈ db ∧ r.status = .pending
          ∧ (r.last_retry_at = none
              ∨ ∃ t, r.last_retry_at = some t ∧ t < retryAfter)
          ∧ r.retry_count < r.max_retries
          ∧ (r.expires_at = none ∨ ∃ e, r.expires_at = some e ∧ now < e)))
    ∧ (getRetryableBufferedSignals db now retryAfter).Sorted retryOrderLe
    ∧ RETRY_INTERVALS = [1000, 5000, 15000]
    ∧ (∀ rc : Int, 0 ≤ rc →
        retryIntervalFor rc = some (RETRY_INTERVALS.getD (min rc.toNat 2) 0))
    ∧ (processBuffer (some f) now db).1.attempts
        = ((getRetryableBufferedSignals (expireOldBufferedSignals db now).1
              now (now - 1000)).filter
            (fun b => !(shouldSkip now b))).map (fun b => b.id)
    ∧ (∀ (b : BufferRow) (iv : Int), retryIntervalFor b.retry_count = some iv →
        (shouldSkip now b = false ↔ now - lastRetryOf b ≥ iv)) := by
  refine ⟨?_, ?_, rfl, ?_, ?_, ?_⟩
  · intro r
    rw [mem_getRetryableBufferedSignals, retryableB_iff]
  · exact List.sorted_insertionSort retryOrderLe _
  · intro rc hrc
    rw [retryIntervalFor, if_neg (by omega)]
    by_cases h0 : rc = 0
    · subst h0
      simp [RETRY_INTERVALS]
    · rw [if_neg h0]
      by_cases h1 : rc = 1
      · subst h1
        simp [RETRY_INTERVALS]
      · rw [if_neg h1]
        have hmin : min rc.toNat 2 = 2 := by omega
        rw [hmin]
        rfl
  · rw [processBuffer]
    exact processFold_attempts f now _ _
  · intro b iv hiv
    rw [shouldSkip, hiv]
    simp [not_lt, ge_iff_le]

/-- The claim's intended priority ranking (`urgent > high > normal >
low`), written out for comparison with the implementation's TEXT order. -/
def specPriorityRank : String → Nat
  | "urgent" => 3
  | "high" => 2
  | "normal" => 1
  | "low" => 0
  | _ => 0

/-- The ordering C5 asserts for the selection: claimed priority rank
descending, then `buffered_at` ascending. -/
def specClaimedOrderLe (a b : BufferRow) : Prop :=
  specPriorityRank b.priority < specPriorityRank a.priority
    ∨ (specPriorityRank a.priority = specPriorityRank b.priority
        ∧ a.buffered_at ≤ b.buffered_at)

instance : DecidableRel specClaimedOrderLe := fun a b => by
  unfold specClaimedOrderLe; infer_instance

/-- A pending `high`-priority row. -/
def c5RowHigh : BufferRow :=
  { id := "h", signal_type := 5, source_server := "s", target_server := "t"
    payload := Json.obj [], priority := "high", buffered_at := 0
    retry_count := 0, last_retry_at := none, max_retries := 3
    expires_at := none, status := .pending }

/-- A pending `low`-priority row, buffered at the same instant. -/
def c5RowLow : BufferRow :=
  { id := "l", signal_type := 5, source_server := "s", target_server := "t"
    payload := Json.obj [], priority := "low", buffered_at := 0
    retry_count := 0, last_retry_at := none, max_retries := 3
    expires_at := none, status := .pending }

/-- C5 counterexample to the claimed ordering: with one `high` and one
`low` pending row, the selection comes back `low` first — descending TEXT
order places `"low"` above `"high"` — so the output is not sorted by the
claimed `urgent > high > normal > low` ranking. -/
theorem C5_processBuffer_selection_cex :
    (getRetryableBufferedSignals [c5RowHigh, c5RowLow] 100000 99000).map
        (fun b => b.priority) = ["low", "high"]
    ∧ ¬ (getRetryableBufferedSignals [c5RowHigh, c5RowLow] 100000
          99000).Sorted specClaimedOrderLe := by
  constructor
  · rfl
  · decide

/-- Witness for C5 at a concrete instance: a fresh row one second past its
backoff interval is attempted. -/
theorem C5_processBuffer_selection_witness :
    retryIntervalFor c5RowHigh.retry_count = some 1000
    ∧ (shouldSkip 100000 c5RowHigh = false ↔ 100000 - lastRetryOf c5RowHigh ≥ 1000) :=
  ⟨rfl, (C5_processBuffer_selection [c5RowHigh] 100000 99000
      (fun _ => true)).2.2.2.2.2 c5RowHigh 1000 rfl⟩

/-! ## C1: retry-count bounds and terminal stability -/

/-- Terminal buffer states: `delivered`, `expired`, `failed`. -/
def isTerminal : BufferStatus → Bool
  | .pending => false
  | .delivered => true
  | .expired => true
  | .failed => true

theorem updateRowById_map_id (db : List BufferRow) (i : String)
    (f : BufferRow → BufferRow) (hf : ∀ r, (f r).id = r.id) :
    (updateRowById db i f).map (fun r => r.id) = db.map (fun r => r.id) := by
  rw [updateRowById, List.map_map]
  apply List.map_congr_left
  intro r _
  by_cases h : r.id = i <;> simp [h, hf r]

theorem mem_updateRowById_of_ne {db : List BufferRow} {i : String}
    {f : BufferRow → BufferRow} {r : BufferRow} (hr : r ∈ db)
    (hne : r.id ≠ i) : r ∈ updateRowById db i f := by
  rw [updateRowById]
  have heq : (if r.id == i then f r else r) = r := by simp [hne]
  exact heq ▸ List.mem_map_of_mem _ hr

theorem mem_updateRowById_cases {db : List BufferRow} {i : String}
    {f : BufferRow → BufferRow} {r' : BufferRow}
    (h : r' ∈ updateRowById db i f) :
    (∃ r ∈ db, r.id = i ∧ r' = f r) ∨ r' ∈ db := by
  rw [updateRowById] at h
  rcases List.mem_map.mp h with ⟨r, hr, heq⟩
  by_cases hid : r.id = i
  · exact Or.inl ⟨r, hr, hid, by rw [← heq]; simp [hid]⟩
  · refine Or.inr ?_
    rw [← heq]
    simp only [beq_iff_eq, hid, if_false]
    exact hr

theorem eq_of_mem_of_id_eq {db : List BufferRow} {r r' : BufferRow}
    (hnd : (db.map (fun x => x.id)).Nodup) (hr : r ∈ db) (hr' : r' ∈ db)
    (heq : r'.id = r.id) : r' = r :=
  List.inj_on_of_nodup_map hnd hr' hr heq

theorem mem_insertBufferedSignal_cases {db : List BufferRow} {row r' : BufferRow}
    (h : r' ∈ insertBufferedSignal db row) : r' ∈ db ∨ r' = row := by
  rw [insertBufferedSignal] at h
  by_cases hc : db.any (fun r => r.id == row.id)
  · rw [if_pos hc] at h; exact Or.inl h
  · rw [if_neg hc] at h
    rcases List.mem_append.mp h with h | h
    · exact Or.inl h
    · exact Or.inr (by simpa using h)

theorem mem_insertBufferedSignal_of_mem {db : List BufferRow} {row r : BufferRow}
    (h : r ∈ db) : r ∈ insertBufferedSignal db row := by
  rw [insertBufferedSignal]
  by_cases hc : db.any (fun x => x.id == row.id)
  · rw [if_pos hc]; exact h
  · rw [if_neg hc]; exact List.mem_append_left _ h

theorem insertBufferedSignal_nodup {db : List BufferRow} {row : BufferRow}
    (hnd : (db.map (fun r => r.id)).Nodup) :
    ((insertBufferedSignal db row).map (fun r => r.id)).Nodup := by
  rw [insertBufferedSignal]
  by_cases hc : db.any (fun r => r.id == row.id)
  · rw [if_pos hc]; exact hnd
  · rw [if_neg hc, List.map_append]
    refine List.Nodup.append hnd (List.nodup_singleton _) ?_
    intro a ha hb
    simp only [List.map_cons, List.map_nil, List.mem_singleton] at hb
    subst hb
    rcases List.mem_map.mp ha with ⟨r, hr, hid⟩
    exact hc (List.any_eq_true.mpr ⟨r, hr, by simp [hid]⟩)

theorem expireOldBufferedSignals_map_id (db : List BufferRow) (now : Int) :
    ((expireOldBufferedSignals db now).1).map (fun r => r.id)
      = db.map (fun r => r.id) := by
  rw [expireOldBufferedSignals, List.map_map]
  apply List.map_congr_left
  intro r _
  by_cases h : expireCond now r <;> simp [h]

theorem mem_expireOldBufferedSignals_cases {db : List BufferRow} {now : Int}
    {r' : BufferRow} (h : r' ∈ (expireOldBufferedSignals db now).1) :
    ∃ r ∈ db, r' = (if expireCond now r then { r with status := .expired } else r) := by
  rw [expireOldBufferedSignals] at h
  rcases List.mem_map.mp h with ⟨r, hr, heq⟩
  exact ⟨r, hr, heq.symm⟩

theorem mem_expireOldBufferedSignals_of_terminal {db : List BufferRow}
    {now : Int} {r : BufferRow} (hr : r ∈ db)
    (ht : isTerminal r.status = true) :
    r ∈ (expireOldBufferedSignals db now).1 := by
  rw [expireOldBufferedSignals]
  have hcond : expireCond now r = false := by
    rw [expireCond]
    cases hs : r.status <;> simp_all [isTerminal]
  have heq : (if expireCond now r then { r with status := BufferStatus.expired }
      else r) = r := by rw [hcond]; simp
  exact heq ▸ List.mem_map_of_mem _ hr

theorem getRetryableBufferedSignals_nodup {db : List BufferRow}
    {now retryAfter : Int} (hnd : (db.map (fun r => r.id)).Nodup) :
    ((getRetryableBufferedSignals db now retryAfter).map (fun r => r.id)).Nodup := by
  have hperm := (List.perm_insertionSort retryOrderLe
    (db.filter (retryableB now retryAfter))).map (fun r => r.id)
  refine hperm.nodup_iff.mpr ?_
  exact (((List.filter_sublist db).map
    (fun r => r.id)).nodup hnd : ((db.filter (retryableB now retryAfter)).map
      (fun r => r.id)).Nodup)

theorem getPendingBufferedSignals_nodup {db : List BufferRow}
    {target : Option String} (hnd : (db.map (fun r => r.id)).Nodup) :
    ((getPendingBufferedSignals db target).map (fun r => r.id)).Nodup := by
  have hbase : ((db.filter (fun r => r.status == BufferStatus.pending)).map
      (fun r => r.id)).Nodup :=
    ((db.filter_sublist).map (fun r => r.id)).nodup hnd
  cases target with
  | none =>
    simp only [getPendingBufferedSignals]
    exact ((List.perm_insertionSort pendingOrderLe _).map
      (fun r => r.id)).nodup_iff.mpr hbase
  | some t =>
    simp only [getPendingBufferedSignals]
    by_cases ht : (t == "") = true
    · rw [if_pos ht]
      exact ((List.perm_insertionSort pendingOrderLe _).map
        (fun r => r.id)).nodup_iff.mpr hbase
    · rw [if_neg ht]
      exact ((List.perm_insertionSort pendingOrderLe _).map
        (fun r => r.id)).nodup_iff.mpr
        ((((db.filter (fun r => r.status == BufferStatus.pending)).filter_sublist).map
          (fun r => r.id)).nodup hbase)

theorem mem_getPendingBufferedSignals {db : List BufferRow}
    {target : Option String} {b : BufferRow}
    (h : b ∈ getPendingBufferedSignals db target) :
    b ∈ db ∧ b.status = .pending := by
  cases target with
  | none =>
    simp only [getPendingBufferedSignals] at h
    rw [List.mem_insertionSort] at h
    rcases List.mem_filter.mp h with ⟨h1, h2⟩
    exact ⟨h1, by simpa using h2⟩
  | some t =>
    simp only [getPendingBufferedSignals] at h
    rw [List.mem_insertionSort] at h
    by_cases ht : (t == "") = true
    · rw [if_pos ht] at h
      rcases List.mem_filter.mp h with ⟨h1, h2⟩
      exact ⟨h1, by simpa using h2⟩
    · rw [if_neg ht] at h
      rcases List.mem_filter.mp h with ⟨h0, _⟩
      rcases List.mem_filter.mp h0 with ⟨h1, h2⟩
      exact ⟨h1, by simpa using h2⟩

theorem updateBufferedSignalStatus_map_id (db : List BufferRow) (i : String)
    (st : BufferStatus) :
    (updateBufferedSignalStatus db i st).map (fun r => r.id)
      = db.map (fun r => r.id) := by
  rw [updateBufferedSignalStatus]
  exact updateRowById_map_id _ _ _ (fun r => rfl)

theorem incrementBufferRetryCount_map_id (db : List BufferRow) (i : String)
    (now : Int) :
    (incrementBufferRetryCount db i now).map (fun r => r.id)
      = db.map (fun r => r.id) := by
  rw [incrementBufferRetryCount]
  exact updateRowById_map_id _ _ _ (fun r => rfl)

theorem processStep_db_shape (cb : Option (BufferRow → Bool)) (now : Int)
    (acc : ProcessAcc) (b : BufferRow) :
    (processStep cb now acc b).db = acc.db
    ∨ (∃ st, (processStep cb now acc b).db
        = updateBufferedSignalStatus acc.db b.id st)
    ∨ (processStep cb now acc b).db = incrementBufferRetryCount acc.db b.id now
    ∨ (∃ st, (processStep cb now acc b).db
        = updateBufferedSignalStatus (incrementBufferRetryCount acc.db b.id now)
            b.id st) := by
  rw [processStep.eq_def]
  split
  · exact Or.inl rfl
  · split
    · exact Or.inl rfl
    · split
      · exact Or.inr (Or.inl ⟨_, rfl⟩)
      · split
        · exact Or.inr (Or.inr (Or.inr ⟨_, rfl⟩))
        · exact Or.inr (Or.inr (Or.inl rfl))

theorem processStep_attempts_shape (cb : Option (BufferRow → Bool)) (now : Int)
    (acc : ProcessAcc) (b : BufferRow) :
    (processStep cb now acc b).attempts = acc.attempts
    ∨ (processStep cb now acc b).attempts = acc.attempts ++ [b.id] := by
  rw [processStep.eq_def]
  split
  · exact Or.inl rfl
  · split
    · exact Or.inl rfl
    · split
      · exact Or.inr rfl
      · split
        · exact Or.inr rfl
        · exact Or.inr rfl

theorem processStep_mem_of_ne {cb : Option (BufferRow → Bool)} {now : Int}
    {acc : ProcessAcc} {b : BufferRow} {r : BufferRow}
    (hr : r ∈ acc.db) (hne : r.id ≠ b.id) :
    r ∈ (processStep cb now acc b).db := by
  rcases processStep_db_shape cb now acc b with h | ⟨st, h⟩ | h | ⟨st, h⟩
  · rw [h]; exact hr
  · rw [h, updateBufferedSignalStatus]; exact mem_updateRowById_of_ne hr hne
  · rw [h, incrementBufferRetryCount]; exact mem_updateRowById_of_ne hr hne
  · rw [h, updateBufferedSignalStatus, incrementBufferRetryCount]
    exact mem_updateRowById_of_ne (mem_updateRowById_of_ne hr hne) hne

theorem processStep_map_id (cb : Option (BufferRow → Bool)) (now : Int)
    (acc : ProcessAcc) (b : BufferRow) :
    ((processStep cb now acc b).db).map (fun r => r.id)
      = acc.db.map (fun r => r.id) := by
  rcases processStep_db_shape cb now acc b with h | ⟨st, h⟩ | h | ⟨st, h⟩
  · rw [h]
  · rw [h, updateBufferedSignalStatus_map_id]
  · rw [h, incrementBufferRetryCount_map_id]
  · rw [h, updateBufferedSignalStatus_map_id, incrementBufferRetryCount_map_id]

theorem processFold_map_id (cb : Option (BufferRow → Bool)) (now : Int) :
    ∀ (pending : List BufferRow) (acc : ProcessAcc),
      ((pending.foldl (processStep cb now) acc).db).map (fun r => r.id)
        = acc.db.map (fun r => r.id) := by
  intro pending
  induction pending with
  | nil => intro acc; rfl
  | cons b rest ih =>
    intro acc
    rw [List.foldl_cons, ih, processStep_map_id]

theorem processFold_attempts_sub (cb : Option (BufferRow → Bool)) (now : Int) :
    ∀ (pending : List BufferRow) (acc : ProcessAcc) (a : String),
      a ∈ (pending.foldl (processStep cb now) acc).attempts →
      a ∈ acc.attempts ∨ a ∈ pending.map (fun b => b.id) := by
  intro pending
  induction pending with
  | nil => intro acc a ha; exact Or.inl ha
  | cons b rest ih =>
    intro acc a ha
    rw [List.foldl_cons] at ha
    rcases ih _ a ha with h | h
    · rcases processStep_attempts_shape cb now acc b with hs | hs <;> rw [hs] at h
      · exact Or.inl h
      · rcases List.mem_append.mp h with h | h
        · exact Or.inl h
        · right
          simp only [List.mem_singleton] at h
          simp [h]
    · right
      simp [h]

theorem processFold_bounds (cb : Option (BufferRow → Bool)) (now : Int) :
    ∀ (pending : List BufferRow) (acc : ProcessAcc),
      ((acc.db.map (fun r => r.id)).Nodup) →
      (∀ b ∈ pending, b ∈ acc.db) →
      ((pending.map (fun b => b.id)).Nodup) →
      (∀ b ∈ pending, b.retry_count < b.max_retries) →
      (∀ r ∈ acc.db, 0 ≤ r.retry_count ∧ r.retry_count ≤ r.max_retries) →
      ∀ r ∈ (pending.foldl (processStep cb now) acc).db,
        0 ≤ r.retry_count ∧ r.retry_count ≤ r.max_retries := by
  intro pending
  induction pending with
  | nil =>
    intro acc _ _ _ _ hb r hr
    exact hb r hr
  | cons b rest ih =>
    intro acc hnd hmem hpnd hbud hb
    rw [List.foldl_cons]
    have hbacc : b ∈ acc.db := hmem b (List.mem_cons_self _ _)
    have hbbud : b.retry_count < b.max_retries := hbud b (List.mem_cons_self _ _)
    have hbb : 0 ≤ b.retry_count := (hb b hbacc).1
    have hinc : ∀ r ∈ incrementBufferRetryCount acc.db b.id now,
        0 ≤ r.retry_count ∧ r.retry_count ≤ r.max_retries := by
      intro r hr
      rw [incrementBufferRetryCount] at hr
      rcases mem_updateRowById_cases hr with ⟨r0, hr0, hid, heq⟩ | hr0
      · have hr0b : r0 = b := eq_of_mem_of_id_eq hnd hbacc hr0 hid
        subst hr0b
        subst heq
        constructor
        · show (0 : Int) ≤ r0.retry_count + 1
          omega
        · show r0.retry_count + 1 ≤ r0.max_retries
          omega
      · exact hb r hr0
    have hstep : ∀ r ∈ (processStep cb now acc b).db,
        0 ≤ r.retry_count ∧ r.retry_count ≤ r.max_retries := by
      intro r hr
      rcases processStep_db_shape cb now acc b with h | ⟨st, h⟩ | h | ⟨st, h⟩
      · rw [h] at hr; exact hb r hr
      · rw [h, updateBufferedSignalStatus] at hr
        rcases mem_updateRowById_cases hr with ⟨r0, hr0, _, heq⟩ | hr0
        · subst heq; exact hb r0 hr0
        · exact hb r hr0
      · rw [h] at hr; exact hinc r hr
      · rw [h, updateBufferedSignalStatus] at hr
        rcases mem_updateRowById_cases hr with ⟨r0, hr0, _, heq⟩ | hr0
        · subst heq; exact hinc r0 hr0
        · exact hinc r hr0
    have hne : ∀ b' ∈ rest, b'.id ≠ b.id := by
      intro b' hb' heq
      rw [List.map_cons] at hpnd
      exact (List.nodup_cons.mp hpnd).1 (heq ▸ List.mem_map_of_mem _ hb')
    refine ih (processStep cb now acc b)
      (by rw [processStep_map_id]; exact hnd)
      (fun b' hb' => processStep_mem_of_ne (hmem b' (List.mem_cons_of_mem _ hb'))
        (hne b' hb'))
      ((List.nodup_cons.mp (by rw [List.map_cons] at hpnd; exact hpnd)).2)
      (fun b' hb' => hbud b' (List.mem_cons_of_mem _ hb'))
      hstep

theorem processFold_terminal (cb : Option (BufferRow → Bool)) (now : Int) :
    ∀ (pending : List BufferRow) (acc : ProcessAcc) (r : BufferRow),
      r ∈ acc.db → ((acc.db.map (fun x => x.id)).Nodup) →
      (∀ b ∈ pending, b ∈ acc.db ∧ b.status = .pending) →
      ((pending.map (fun b => b.id)).Nodup) →
      isTerminal r.status = true →
      r ∈ (pending.foldl (processStep cb now) acc).db := by
  intro pending
  induction pending with
  | nil =>
    intro acc r hr _ _ _ _
    exact hr
  | cons b rest ih =>
    intro acc r hr hnd hmem hpnd ht
    rw [List.foldl_cons]
    obtain ⟨hbacc, hbp⟩ := hmem b (List.mem_cons_self _ _)
    have hbne : b.id ≠ r.id := by
      intro heq
      have : b = r := eq_of_mem_of_id_eq hnd hr hbacc heq
      rw [this] at hbp
      rw [hbp] at ht
      cases ht
    have hne : ∀ b' ∈ rest, b'.id ≠ b.id := by
      intro b' hb' heq
      rw [List.map_cons] at hpnd
      exact (List.nodup_cons.mp hpnd).1 (heq ▸ List.mem_map_of_mem _ hb')
    refine ih (processStep cb now acc b) r
      (processStep_mem_of_ne hr (fun h => hbne h.symm))
      (by rw [processStep_map_id]; exact hnd)
      (fun b' hb' => ⟨processStep_mem_of_ne (hmem b' (List.mem_cons_of_mem _ hb')).1
          (hne b' hb'), (hmem b' (List.mem_cons_of_mem _ hb')).2⟩)
      ((List.nodup_cons.mp (by rw [List.map_cons] at hpnd; exact hpnd)).2)
      ht

theorem retryStep_db_shape (cb : Option (BufferRow → Bool)) (now : Int)
    (acc : RetryAcc) (i : String) :
    (retryStep cb now acc i).db = acc.db
    ∨ (retryStep cb now acc i).db = updateBufferedSignalStatus acc.db i .delivered
    ∨ (retryStep cb now acc i).db = incrementBufferRetryCount acc.db i now := by
  rw [retryStep.eq_def]
  split
  · exact Or.inl rfl
  · split
    · exact Or.inl rfl
    · split
      · exact Or.inl rfl
      · split
        · exact Or.inr (Or.inl rfl)
        · exact Or.inr (Or.inr rfl)

theorem retryStep_attempts_shape (cb : Option (BufferRow → Bool)) (now : Int)
    (acc : RetryAcc) (i : String) :
    (retryStep cb now acc i).attempts = acc.attempts
    ∨ (retryStep cb now acc i).attempts = acc.attempts ++ [i] := by
  rw [retryStep.eq_def]
  split
  · exact Or.inl rfl
  · split
    · exact Or.inl rfl
    · split
      · exact Or.inl rfl
      · split
        · exact Or.inr rfl
        · exact Or.inr rfl

theorem retryStep_mem_of_ne {cb : Option (BufferRow → Bool)} {now : Int}
    {acc : RetryAcc} {i : String} {r : BufferRow}
    (hr : r ∈ acc.db) (hne : r.id ≠ i) : r ∈ (retryStep cb now acc i).db := by
  rcases retryStep_db_shape cb now acc i with h | h | h
  · rw [h]; exact hr
  · rw [h, updateBufferedSignalStatus]; exact mem_updateRowById_of_ne hr hne
  · rw [h, incrementBufferRetryCount]; exact mem_updateRowById_of_ne hr hne

theorem retryStep_map_id (cb : Option (BufferRow → Bool)) (now : Int)
    (acc : RetryAcc) (i : String) :
    ((retryStep cb now acc i).db).map (fun r => r.id)
      = acc.db.map (fun r => r.id) := by
  rcases retryStep_db_shape cb now acc i with h | h | h
  · rw [h]
  · rw [h, updateBufferedSignalStatus_map_id]
  · rw [h, incrementBufferRetryCount_map_id]

theorem retryStep_terminal_skip {cb : Option (BufferRow → Bool)} {now : Int}
    {acc : RetryAcc} {r : BufferRow}
    (hnd : (acc.db.map (fun x => x.id)).Nodup) (hr : r ∈ acc.db)
    (ht : isTerminal r.status = true) :
    retryStep cb now acc r.id = acc := by
  rw [retryStep.eq_def]
  split
  · rfl
  · rename_i b heq
    have hbmem : b ∈ acc.db := List.mem_of_find?_eq_some heq
    have hbid : b.id = r.id := by simpa using List.find?_some heq
    have hbr : b = r := eq_of_mem_of_id_eq hnd hr hbmem hbid
    rw [if_pos ?_]
    rw [hbr]
    intro hp
    rw [hp] at ht
    cases ht

theorem retryFold_map_id (cb : Option (BufferRow → Bool)) (now : Int) :
    ∀ (ids : List String) (acc : RetryAcc),
      ((ids.foldl (retryStep cb now) acc).db).map (fun r => r.id)
        = acc.db.map (fun r => r.id) := by
  intro ids
  induction ids with
  | nil => intro acc; rfl
  | cons i rest ih =>
    intro acc
    rw [List.foldl_cons, ih, retryStep_map_id]

theorem retryFold_terminal (cb : Option (BufferRow → Bool)) (now : Int) :
    ∀ (ids : List String) (acc : RetryAcc) (r : BufferRow),
      r ∈ acc.db → ((acc.db.map (fun x => x.id)).Nodup) →
      isTerminal r.status = true →
      r ∈ (ids.foldl (retryStep cb now) acc).db
      ∧ ∀ a ∈ (ids.foldl (retryStep cb now) acc).attempts,
          a ∈ acc.attempts ∨ a ≠ r.id := by
  intro ids
  induction ids with
  | nil =>
    intro acc r hr _ _
    exact ⟨hr, fun a ha => Or.inl ha⟩
  | cons i rest ih =>
    intro acc r hr hnd ht
    rw [List.foldl_cons]
    by_cases hid : i = r.id
    · subst hid
      rw [retryStep_terminal_skip hnd hr ht]
      exact ih acc r hr hnd ht
    · have hr' : r ∈ (retryStep cb now acc i).db :=
        retryStep_mem_of_ne hr (fun h => hid h.symm)
      have hnd' : (((retryStep cb now acc i).db).map (fun x => x.id)).Nodup := by
        rw [retryStep_map_id]; exact hnd
      obtain ⟨h1, h2⟩ := ih (retryStep cb now acc i) r hr' hnd' ht
      refine ⟨h1, fun a ha => ?_⟩
      rcases h2 a ha with h | h
      · rcases retryStep_attempts_shape cb now acc i with hs | hs <;> rw [hs] at h
        · exact Or.inl h
        · rcases List.mem_append.mp h with h | h
          · exact Or.inl h
          · simp only [List.mem_singleton] at h
            subst h
            exact Or.inr (fun hcontra => hid hcontra)
      · exact Or.inr h

theorem flushStep_db_shape (cb : Option (BufferRow → Bool)) (acc : FlushAcc)
    (b : BufferRow) :
    (flushStep cb acc b).db = acc.db
    ∨ ∃ st, (flushStep cb acc b).db = updateBufferedSignalStatus acc.db b.id st := by
  rw [flushStep.eq_def]
  split
  · exact Or.inl rfl
  · split
    · exact Or.inr ⟨_, rfl⟩
    · exact Or.inr ⟨_, rfl⟩

theorem flushStep_attempts_shape (cb : Option (BufferRow → Bool)) (acc : FlushAcc)
    (b : BufferRow) :
    (flushStep cb acc b).attempts = acc.attempts
    ∨ (flushStep cb acc b).attempts = acc.attempts ++ [b.id] := by
  rw [flushStep.eq_def]
  split
  · exact Or.inl rfl
  · split
    · exact Or.inr rfl
    · exact Or.inr rfl

theorem flushStep_mem_of_ne {cb : Option (BufferRow → Bool)} {acc : FlushAcc}
    {b r : BufferRow} (hr : r ∈ acc.db) (hne : r.id ≠ b.id) :
    r ∈ (flushStep cb acc b).db := by
  rcases flushStep_db_shape cb acc b with h | ⟨st, h⟩
  · rw [h]; exact hr
  · rw [h, updateBufferedSignalStatus]; exact mem_updateRowById_of_ne hr hne

theorem flushStep_map_id (cb : Option (BufferRow → Bool)) (acc : FlushAcc)
    (b : BufferRow) :
    ((flushStep cb acc b).db).map (fun r => r.id)
      = acc.db.map (fun r => r.id) := by
  rcases flushStep_db_shape cb acc b with h | ⟨st, h⟩
  · rw [h]
  · rw [h, updateBufferedSignalStatus_map_id]

theorem flushFold_map_id (cb : Option (BufferRow → Bool)) :
    ∀ (pending : List BufferRow) (acc : FlushAcc),
      ((pending.foldl (flushStep cb) acc).db).map (fun r => r.id)
        = acc.db.map (fun r => r.id) := by
  intro pending
  induction pending with
  | nil => intro acc; rfl
  | cons b rest ih =>
    intro acc
    rw [List.foldl_cons, ih, flushStep_map_id]

theorem flushFold_attempts_sub (cb : Option (BufferRow → Bool)) :
    ∀ (pending : List BufferRow) (acc : FlushAcc) (a : String),
      a ∈ (pending.foldl (flushStep cb) acc).attempts →
      a ∈ acc.attempts ∨ a ∈ pending.map (fun b => b.id) := by
  intro pending
  induction pending with
  | nil => intro acc a ha; exact Or.inl ha
  | cons b rest ih =>
    intro acc a ha
    rw [List.foldl_cons] at ha
    rcases ih _ a ha with h | h
    · rcases flushStep_attempts_shape cb acc b with hs | hs <;> rw [hs] at h
      · exact Or.inl h
      · rcases List.mem_append.mp h with h | h
        · exact Or.inl h
        · right
          simp only [List.mem_singleton] at h
          simp [h]
    · right
      simp [h]

theorem flushFold_bounds (cb : Option (BufferRow → Bool)) :
    ∀ (pending : List BufferRow) (acc : FlushAcc),
      (∀ r ∈ acc.db, 0 ≤ r.retry_count ∧ r.retry_count ≤ r.max_retries) →
      ∀ r ∈ (pending.foldl (flushStep cb) acc).db,
        0 ≤ r.retry_count ∧ r.retry_count ≤ r.max_retries := by
  intro pending
  induction pending with
  | nil =>
    intro acc hb r hr
    exact hb r hr
  | cons b rest ih =>
    intro acc hb
    rw [List.foldl_cons]
    refine ih _ ?_
    intro r hr
    rcases flushStep_db_shape cb acc b with h | ⟨st, h⟩
    · rw [h] at hr; exact hb r hr
    · rw [h, updateBufferedSignalStatus] at hr
      rcases mem_updateRowById_cases hr with ⟨r0, hr0, _, heq⟩ | hr0
      · subst heq; exact hb r0 hr0
      · exact hb r hr0

theorem flushFold_terminal (cb : Option (BufferRow → Bool)) :
    ∀ (pending : List BufferRow) (acc : FlushAcc) (r : BufferRow),
      r ∈ acc.db → ((acc.db.map (fun x => x.id)).Nodup) →
      (∀ b ∈ pending, b ∈ acc.db ∧ b.status = .pending) →
      ((pending.map (fun b => b.id)).Nodup) →
      isTerminal r.status = true →
      r ∈ (pending.foldl (flushStep cb) acc).db := by
  intro pending
  induction pending with
  | nil =>
    intro acc r hr _ _ _ _
    exact hr
  | cons b rest ih =>
    intro acc r hr hnd hmem hpnd ht
    rw [List.foldl_cons]
    obtain ⟨hbacc, hbp⟩ := hmem b (List.mem_cons_self _ _)
    have hbne : b.id ≠ r.id := by
      intro heq
      have : b = r := eq_of_mem_of_id_eq hnd hr hbacc heq
      rw [this] at hbp
      rw [hbp] at ht
      cases ht
    have hne : ∀ b' ∈ rest, b'.id ≠ b.id := by
      intro b' hb' heq
      rw [List.map_cons] at hpnd
      exact (List.nodup_cons.mp hpnd).1 (heq ▸ List.mem_map_of_mem _ hb')
    refine ih (flushStep cb acc b) r
      (flushStep_mem_of_ne hr (fun h => hbne h.symm))
      (by rw [flushStep_map_id]; exact hnd)
      (fun b' hb' => ⟨flushStep_mem_of_ne (hmem b' (List.mem_cons_of_mem _ hb')).1
          (hne b' hb'), (hmem b' (List.mem_cons_of_mem _ hb')).2⟩)
      ((List.nodup_cons.mp (by rw [List.map_cons] at hpnd; exact hpnd)).2)
      ht

theorem applyBufOp_nodup (db : List BufferRow) (op : BufOp)
    (hnd : (db.map (fun r => r.id)).Nodup) :
    (((applyBufOp db op).1).map (fun r => r.id)).Nodup := by
  cases op with
  | bufferOp id st src tgt pl prio ttl now =>
    exact insertBufferedSignal_nodup hnd
  | processOp cb now =>
    show (((processBuffer cb now db).1.db).map (fun r => r.id)).Nodup
    rw [processBuffer]
    rw [processFold_map_id]
    rw [show (⟨(expireOldBufferedSignals db now).1, 0, 0, 0, []⟩ : ProcessAcc).db
        = (expireOldBufferedSignals db now).1 from rfl]
    rw [expireOldBufferedSignals_map_id]
    exact hnd
  | retryOp ids cb now =>
    show (((retryBufferedSignals cb now db ids).db).map (fun r => r.id)).Nodup
    rw [retryBufferedSignals, retryFold_map_id]
    exact hnd
  | flushOp tgt cb now =>
    show (((flushBuffer cb db tgt).db).map (fun r => r.id)).Nodup
    rw [flushBuffer, flushFold_map_id]
    exact hnd

theorem applyBufOp_bounds (db : List BufferRow) (op : BufOp)
    (hnd : (db.map (fun r => r.id)).Nodup)
    (hb : ∀ r ∈ db, 0 ≤ r.retry_count ∧ r.retry_count ≤ r.max_retries)
    (hop : op.isRetryOp = false) :
    ∀ r ∈ (applyBufOp db op).1,
      0 ≤ r.retry_count ∧ r.retry_count ≤ r.max_retries := by
  cases op with
  | bufferOp id st src tgt pl prio ttl now =>
    intro r hr
    rcases mem_insertBufferedSignal_cases hr with h | h
    · exact hb r h
    · subst h
      exact ⟨le_refl 0, by norm_num [MAX_RETRIES]⟩
  | processOp cb now =>
    intro r hr
    have hsw : ∀ r ∈ (expireOldBufferedSignals db now).1,
        0 ≤ r.retry_count ∧ r.retry_count ≤ r.max_retries := by
      intro r hr
      rcases mem_expireOldBufferedSignals_cases hr with ⟨r0, hr0, heq⟩
      subst heq
      by_cases h : expireCond now r0
      · rw [if_pos h]; exact hb r0 hr0
      · rw [if_neg h]; exact hb r0 hr0
    have hswnd : (((expireOldBufferedSignals db now).1).map (fun r => r.id)).Nodup := by
      rw [expireOldBufferedSignals_map_id]; exact hnd
    refine processFold_bounds cb now _ _ hswnd ?_
      (getRetryableBufferedSignals_nodup hswnd) ?_ hsw r hr
    · intro b hbmem
      exact ((mem_getRetryableBufferedSignals _ _ _ b).mp hbmem).1
    · intro b hbmem
      have := (retryableB_iff now (now - 1000) b).mp
        ((mem_getRetryableBufferedSignals _ _ _ b).mp hbmem).2
      exact this.2.2.1
  | retryOp ids cb now =>
    simp [BufOp.isRetryOp] at hop
  | flushOp tgt cb now =>
    intro r hr
    exact flushFold_bounds cb _ _ hb r hr

theorem applyBufOp_terminal (db : List BufferRow) (op : BufOp) (r : BufferRow)
    (hnd : (db.map (fun x => x.id)).Nodup) (hr : r ∈ db)
    (ht : isTerminal r.status = true) :
    r ∈ (applyBufOp db op).1 ∧ r.id ∉ (applyBufOp db op).2 := by
  cases op with
  | bufferOp id st src tgt pl prio ttl now =>
    exact ⟨mem_insertBufferedSignal_of_mem hr, List.not_mem_nil _⟩
  | processOp cb now =>
    have hsw : r ∈ (expireOldBufferedSignals db now).1 :=
      mem_expireOldBufferedSignals_of_terminal hr ht
    have hswnd : (((expireOldBufferedSignals db now).1).map (fun x => x.id)).Nodup := by
      rw [expireOldBufferedSignals_map_id]; exact hnd
    have hpend : ∀ b ∈ getRetryableBufferedSignals
        (expireOldBufferedSignals db now).1 now (now - 1000),
        b ∈ (expireOldBufferedSignals db now).1 ∧ b.status = .pending := by
      intro b hbmem
      have h1 := (mem_getRetryableBufferedSignals _ _ _ b).mp hbmem
      exact ⟨h1.1, ((retryableB_iff now (now - 1000) b).mp h1.2).1⟩
    constructor
    · exact processFold_terminal cb now _ _ r hsw hswnd hpend
        (getRetryableBufferedSignals_nodup hswnd) ht
    · intro hatt
      rcases processFold_attempts_sub cb now _ _ r.id hatt with h | h
      · cases h
      · rcases List.mem_map.mp h with ⟨b, hbmem, hbid⟩
        obtain ⟨hbm, hbp⟩ := hpend b hbmem
        have : b = r := eq_of_mem_of_id_eq hswnd hsw hbm hbid
        rw [this] at hbp
        rw [hbp] at ht
        cases ht
  | retryOp ids cb now =>
    exact retryFold_terminal cb now ids ⟨db, 0, 0, 0, []⟩ r hr hnd ht
      |>.imp id (fun h2 hatt => by
        rcases h2 r.id hatt with h | h
        · cases h
        · exact h rfl)
  | flushOp tgt cb now =>
    have hpend : ∀ b ∈ getPendingBufferedSignals db tgt,
        b ∈ db ∧ b.status = .pending := fun b hb => mem_getPendingBufferedSignals hb
    constructor
    · exact flushFold_terminal cb _ _ r hr hnd hpend
        (getPendingBufferedSignals_nodup hnd) ht
    · intro hatt
      rcases flushFold_attempts_sub cb _ _ r.id hatt with h | h
      · cases h
      · rcases List.mem_map.mp h with ⟨b, hbmem, hbid⟩
        obtain ⟨hbm, hbp⟩ := hpend b hbmem
        have : b = r := eq_of_mem_of_id_eq hnd hr hbm hbid
        rw [this] at hbp
        rw [hbp] at ht
        cases ht

theorem runBufOps_nodup (ops : List BufOp) :
    ∀ db : List BufferRow, (db.map (fun r => r.id)).Nodup →
      (((runBufOps db ops).1).map (fun r => r.id)).Nodup := by
  induction ops with
  | nil => intro db hnd; exact hnd
  | cons op rest ih =>
    intro db hnd
    exact ih _ (applyBufOp_nodup db op hnd)

theorem runBufOps_bounds (ops : List BufOp) :
    ∀ db : List BufferRow, (db.map (fun r => r.id)).Nodup →
      (∀ r ∈ db, 0 ≤ r.retry_count ∧ r.retry_count ≤ r.max_retries) →
      (∀ op ∈ ops, op.isRetryOp = false) →
      ∀ r ∈ (runBufOps db ops).1,
        0 ≤ r.retry_count ∧ r.retry_count ≤ r.max_retries := by
  induction ops with
  | nil => intro db _ hb _ r hr; exact hb r hr
  | cons op rest ih =>
    intro db hnd hb hops r hr
    exact ih _ (applyBufOp_nodup db op hnd)
      (applyBufOp_bounds db op hnd hb (hops op (List.mem_cons_self _ _)))
      (fun o ho => hops o (List.mem_cons_of_mem _ ho)) r hr

theorem runBufOps_terminal (ops : List BufOp) :
    ∀ (db : List BufferRow) (r : BufferRow),
      (db.map (fun x => x.id)).Nodup → r ∈ db → isTerminal r.status = true →
      r ∈ (runBufOps db ops).1 ∧ r.id ∉ (runBufOps db ops).2 := by
  induction ops with
  | nil =>
    intro db r _ hr _
    exact ⟨hr, List.not_mem_nil _⟩
  | cons op rest ih =>
    intro db r hnd hr ht
    obtain ⟨h1, h2⟩ := applyBufOp_terminal db op r hnd hr ht
    obtain ⟨h3, h4⟩ := ih (applyBufOp db op).1 r (applyBufOp_nodup db op hnd) h1 ht
    refine ⟨h3, ?_⟩
    show r.id ∉ (applyBufOp db op).2 ++ (runBufOps (applyBufOp db op).1 rest).2
    intro hmem
    rcases List.mem_append.mp hmem with h | h
    · exact h2 h
    · exact h4 h

/-- C1 (amended): starting from an empty store, `0 ≤ retry_count ≤
max_retries` holds for every row at every moment of any operation sequence
made of `bufferSignal`, `processBuffer` and `flushBuffer`; the original
claim's inclusion of `retryBufferedSignals` fails, because each failed
manual retry increments `retry_count` without a budget check.  Terminal
rows, however, are never handed to the delivery callback and never change
status under ANY later operation, `retryBufferedSignals` included. -/
theorem C1_buffer_lifecycle :
    (∀ ops : List BufOp, (∀ op ∈ ops, op.isRetryOp = false) →
      ∀ r ∈ (runBufOps [] ops).1,
        0 ≤ r.retry_count ∧ r.retry_count ≤ r.max_retries)
    ∧ ∀ (ops₁ ops₂ : List BufOp) (r : BufferRow),
        r ∈ (runBufOps [] ops₁).1 → isTerminal r.status = true →
        (∀ r' ∈ (runBufOps (runBufOps [] ops₁).1 ops₂).1,
            r'.id = r.id → r'.status = r.status)
        ∧ r.id ∉ (runBufOps (runBufOps [] ops₁).1 ops₂).2 := by
  constructor
  · intro ops hops r hr
    exact runBufOps_bounds ops [] (by simp) (by simp) hops r hr
  · intro ops₁ ops₂ r hr ht
    have hnd : ((runBufOps [] ops₁).1.map (fun x => x.id)).Nodup :=
      runBufOps_nodup ops₁ [] (by simp)
    obtain ⟨hmem, hatt⟩ := runBufOps_terminal ops₂ (runBufOps [] ops₁).1 r hnd hr ht
    refine ⟨?_, hatt⟩
    intro r' hr' hid
    have hnd2 := runBufOps_nodup ops₂ _ hnd
    rw [eq_of_mem_of_id_eq hnd2 hmem hr' hid]

/-- The counterexample trace: buffer one signal, then fail four manual
retries of it. -/
def c1CexOps : List BufOp :=
  [.bufferOp "b1" 5 "s" "t" [] "normal" 24 0,
   .retryOp ["b1"] (some (fun _ => false)) 10,
   .retryOp ["b1"] (some (fun _ => false)) 20,
   .retryOp ["b1"] (some (fun _ => false)) 30,
   .retryOp ["b1"] (some (fun _ => false)) 40]

/-- C1 counterexample to the claim as stated: after four failed
`retryBufferedSignals` calls on one buffered row, its `retry_count` is 4
while `max_retries` is 3 — the bound `retry_count ≤ max_retries` is
violated on a reachable state. -/
theorem C1_buffer_lifecycle_cex :
    ∃ r ∈ (runBufOps [] c1CexOps).1, r.max_retries < r.retry_count := by
  decide

/-- The delivered row the C1 witness trace produces. -/
def c1wRow : BufferRow :=
  { id := "w1", signal_type := 1, source_server := "s", target_server := "t"
    payload := Json.obj [], priority := "normal", buffered_at := 0
    retry_count := 0, last_retry_at := none, max_retries := 3
    expires_at := some 86400000, status := BufferStatus.delivered }

/-- Witness for C1 at a concrete instance: one buffered then flushed
(delivered) row keeps its bounds, and a later manual retry neither touches
its status nor attempts delivery of it. -/
theorem C1_buffer_lifecycle_witness :
    (∀ r ∈ (runBufOps []
        [.bufferOp "w1" 1 "s" "t" [] "normal" 24 0]).1,
      0 ≤ r.retry_count ∧ r.retry_count ≤ r.max_retries)
    ∧ ∀ r' ∈ (runBufOps (runBufOps []
          [.bufferOp "w1" 1 "s" "t" [] "normal" 24 0,
           .flushOp none (some (fun _ => true)) 50]).1
        [.retryOp ["w1"] (some (fun _ => false)) 60]).1,
        r'.id = c1wRow.id → r'.status = c1wRow.status := by
  constructor
  · exact C1_buffer_lifecycle.1
      [.bufferOp "w1" 1 "s" "t" [] "normal" 24 0] (by decide)
  · have hmem : c1wRow ∈ (runBufOps []
        [.bufferOp "w1" 1 "s" "t" [] "normal" 24 0,
         .flushOp none (some (fun _ => true)) 50]).1 := by
      rw [show (runBufOps []
            [BufOp.bufferOp "w1" 1 "s" "t" [] "normal" 24 0,
             BufOp.flushOp none (some (fun _ => true)) 50]).1
          = [c1wRow] from rfl]
      exact List.mem_singleton.mpr rfl
    exact (C1_buffer_lifecycle.2
      [.bufferOp "w1" 1 "s" "t" [] "normal" 24 0,
       .flushOp none (some (fun _ => true)) 50]
      [.retryOp ["w1"] (some (fun _ => false)) 60] c1wRow hmem rfl).1

/-! ## JSON text rendering and UTF-8 bytes

The delivery engine's `encodeRelayMessage` sends `JSON.stringify(...)` as
UTF-8 bytes; this layer makes those bytes concrete.
-/

/-- Lower-case hex digit. -/
def hexDigit (n : Nat) : Char :=
  if n < 10 then Char.ofNat (48 + n) else Char.ofNat (87 + n)

/-- JSON string escaping as `JSON.stringify` performs it: quote and
backslash are backslash-escaped, the named control characters get
two-character escapes, remaining control characters become
`\u00XX`. -/
def jsonEscapeChar (c : Char) : List Char :=
  if c = '\x22' then ['\x5c', '\x22']
  else if c = '\x5c' then ['\x5c', '\x5c']
  else if c = '\x08' then ['\x5c', 'b']
  else if c = '\x09' then ['\x5c', 't']
  else if c = '\x0a' then ['\x5c', 'n']
  else if c = '\x0c' then ['\x5c', 'f']
  else if c = '\x0d' then ['\x5c', 'r']
  else if c.toNat < 32 then
    ['\x5c', 'u', '0', '0', hexDigit (c.toNat / 16), hexDigit (c.toNat % 16)]
  else [c]

/-- The characters of a JSON string literal. -/
def jsonQuote (s : String) : List Char :=
  '\x22' :: (s.data.map jsonEscapeChar).flatten ++ ['\x22']

mutual

/-- The character stream of `JSON.stringify` on a JSON value. -/
def renderJson : Json → List Char
  | .null => ['n', 'u', 'l', 'l']
  | .jbool true => ['t', 'r', 'u', 'e']
  | .jbool false => ['f', 'a', 'l', 's', 'e']
  | .num n => (toString n).data
  | .str s => jsonQuote s
  | .arr xs => '[' :: (renderJsonList xs ++ [']'])
  | .obj fs => '\x7b' :: (renderJsonFields fs ++ ['\x7d'])
termination_by j => sizeOf j

/-- Comma-separated array elements. -/
def renderJsonList : List Json → List Char
  | [] => []
  | [x] => renderJson x
  | x :: y :: rest => renderJson x ++ ',' :: renderJsonList (y :: rest)
termination_by xs => sizeOf xs

/-- Comma-separated `"key":value` members. -/
def renderJsonFields : List (String × Json) → List Char
  | [] => []
  | [(k, v)] => jsonQuote k ++ ':' :: renderJson v
  | (k, v) :: y :: rest =>
      jsonQuote k ++ ':' :: renderJson v ++ ',' :: renderJsonFields (y :: rest)
termination_by xs => sizeOf xs

end

/-- UTF-8 encoding of one character. -/
def utf8Char (c : Char) : List Nat :=
  let n := c.toNat
  if n < 128 then [n]
  else if n < 2048 then [192 + n / 64, 128 + n % 64]
  else if n < 65536 then [224 + n / 4096, 128 + n / 64 % 64, 128 + n % 64]
  else [240 + n / 262144, 128 + n / 4096 % 64, 128 + n / 64 % 64, 128 + n % 64]

/-- UTF-8 encoding of a character stream (`Buffer.from(str, 'utf-8')`). -/
def utf8Encode (s : List Char) : List Nat :=
  (s.map utf8Char).flatten

/-! ## Delivery engine (dist/relay/engine.js) -/

/-- The `buffer_config` block of the node configuration. -/
structure BufferConfig where
  max_size : Nat
  ttl_hours : Int
  retry_intervals_ms : List Int

/-- The part of the relay configuration the engine receives
(`initRelayEngine(cfg, socket)`). -/
structure RelayConfig where
  peer_ports : List (String × Nat)
  buffer_config : BufferConfig

/-- One `relay_rules` row (type `DbRelayRule`); `transform` is carried in
parsed form (`JSON.parse(rule.transform)` at use). -/
structure DbRelayRule where
  id : Int
  signal_pattern : Nat
  source_filter : Option String
  relay_to : List String
  transform : Option Obj
  priority : Int
  enabled : Bool
  created_at : Int
  updated_at : Option Int
  match_count : Int

/-- The `ORDER BY priority DESC` key of `getEnabledRelayRules` (INTEGER
priority). -/
def ruleOrderLe (a b : DbRelayRule) : Prop := b.priority ≤ a.priority

instance : DecidableRel ruleOrderLe := fun a b => by
  unfold ruleOrderLe; infer_instance

instance : IsTotal DbRelayRule ruleOrderLe :=
  ⟨fun a b => (Int.le_total b.priority a.priority).imp id id⟩

instance : IsTrans DbRelayRule ruleOrderLe :=
  ⟨fun _ _ _ hab hbc => hbc.trans hab⟩

/-- `getEnabledRelayRules()` (schema.ts): enabled rules, priority
descending. -/
def getEnabledRelayRules (rules : List DbRelayRule) : List DbRelayRule :=
  List.insertionSort ruleOrderLe (rules.filter (fun r => r.enabled))

/-- `matchRules(signalType, sourceServer)` (rule-engine.ts:13-39): keeps
the enabled rules whose pattern equals the signal type and whose source
filter — when truthy — either fails to compile (`regexOk` false; the
catch block keeps the rule) or matches the source (`regexTest`).  Regex
compilation and matching are oracle parameters; the `match_count`
increment is a store write no verified property reads. -/
def matchRules (rules : List DbRelayRule) (regexOk : String → Bool)
    (regexTest : String → String → Bool) (signalType : Nat)
    (sourceServer : String) : List DbRelayRule :=
  (getEnabledRelayRules rules).filter (fun rule =>
    rule.signal_pattern == signalType
      && (match rule.source_filter with
          | none => true
          | some flt =>
              if flt == "" then true
              else if regexOk flt then regexTest flt sourceServer else true))

/-- A relay request (`RelaySignalRequest`). -/
structure RelayRequest where
  signal_type : Nat
  source_server : String
  target_servers : List String
  payload : Obj
  priority : String
  buffer_if_offline : Bool

/-- One `signal_relays` row (type `DbSignalRelay`); JSON columns carried
parsed, `success` is the stored INTEGER 1/0. -/
structure DbSignalRelay where
  id : String
  signal_type : Nat
  source_server : String
  target_servers : List String
  payload : Obj
  priority : String
  relayed_at : Int
  success : Nat
  targets_reached : List String
  targets_failed : List String
  latency_ms : Int
  error_message : Option String

/-- The `RelayResult` returned to the caller. -/
structure RelayResult where
  relay_id : String
  relayed : Bool
  targets_reached : List String
  targets_failed : List String
  targets_buffered : List String
  latency_ms : Int

/-- What one `relaySignal` call produces: the returned result, the
inserted history row, and the buffer store after any enqueues. -/
structure RelayOutcome where
  result : RelayResult
  record : DbSignalRelay
  bufDb : List BufferRow

/-- `config.peer_ports[target]` lookup. -/
def lookupPort (cfg : RelayConfig) (target : String) : Option Nat :=
  (cfg.peer_ports.find? (fun p => p.1 == target)).map (fun p => p.2)

/-- The object literal `encodeRelayMessage` serializes:
`{ type, sender, payload, priority, timestamp }` — `sender` is a
top-level field, the payload sits unchanged under `payload`. -/
def engineMessageObj (signalType : Nat) (sender : String) (payload : Obj)
    (priority : String) (now : Int) : Obj :=
  [("type", Json.num signalType), ("sender", Json.str sender),
   ("payload", Json.obj payload), ("priority", Json.str priority),
   ("timestamp", Json.num now)]

/-- `encodeRelayMessage(signalType, sender, payload, priority)`
(engine.js:103-117): `Buffer.from(JSON.stringify(message), 'utf-8')` —
plain JSON text, no 12-byte header. -/
def encodeRelayMessage (signalType : Nat) (sender : String) (payload : Obj)
    (priority : String) (now : Int) : List Nat :=
  utf8Encode (renderJson
    (Json.obj (engineMessageObj signalType sender payload priority now)))

/-- `sendToTarget(target, signalType, payload, priority)`
(engine.js:81-101), up to the socket write: the datagram bytes and port
handed to `udpSocket.send`, or `none` when the target has no port mapping
(the send then resolves false without a datagram). -/
def sendToTarget (cfg : RelayConfig) (target : String) (signalType : Nat)
    (payload : Obj) (priority : String) (now : Int) : Option (List Nat × Nat) :=
  match lookupPort cfg target with
  | none => none
  | some port =>
      some (encodeRelayMessage signalType "synapse-relay" payload priority now, port)

/-- The payload after every matched rule's transform, applied in rule
order (engine.js:30-37). -/
def transformedPayload (rules : List DbRelayRule) (regexOk : String → Bool)
    (regexTest : String → String → Bool) (req : RelayRequest) : Obj :=
  (matchRules rules regexOk regexTest req.signal_type req.source_server).foldl
    (fun pl rule =>
      match rule.transform with
      | some t => applyTransform pl t
      | none => pl)
    req.payload

/-- `relaySignal(request)` (engine.js:22-77).  `sendOk i` models the
OS-level outcome of the `i`-th concurrent send (the callback's `err`
argument); a target without a port mapping fails regardless.  `relayId`
stands for the generated UUID, `bufIds i` for the UUID of the buffered
row created for the `i`-th target, and `now` for the call's instant (so
the modelled `latency_ms` is 0). -/
def relaySignal (cfg : RelayConfig) (rules : List DbRelayRule)
    (regexOk : String → Bool) (regexTest : String → String → Bool)
    (sendOk : Nat → Bool) (relayId : String) (bufIds : Nat → String)
    (now : Int) (bufDb : List BufferRow) (req : RelayRequest) : RelayOutcome :=
  let payload := transformedPayload rules regexOk regexTest req
  let outcome := fun (i : Nat) (t : String) => (lookupPort cfg t).isSome && sendOk i
  let targetsReached :=
    (req.target_servers.enum.filter (fun p => outcome p.1 p.2)).map (fun p => p.2)
  let failedIdx := req.target_servers.enum.filter (fun p => !(outcome p.1 p.2))
  let targetsFailed := failedIdx.map (fun p => p.2)
  let bufDbOut :=
    if req.buffer_if_offline then
      failedIdx.foldl
        (fun db p =>
          (bufferSignal db (bufIds p.1) req.signal_type req.source_server p.2
            payload req.priority DEFAULT_TTL_HOURS now).1)
        bufDb
    else bufDb
  let targetsBuffered :=
    if req.buffer_if_offline then failedIdx.map (fun p => p.2) else []
  { result :=
      { relay_id := relayId
        relayed := decide (targetsReached.length > 0)
        targets_reached := targetsReached
        targets_failed := targetsFailed
        targets_buffered := targetsBuffered
        latency_ms := 0 }
    record :=
      { id := relayId
        signal_type := req.signal_type
        source_server := req.source_server
        target_servers := req.target_servers
        payload := payload
        priority := req.priority
        relayed_at := now
        success := if targetsReached.length > 0 then 1 else 0
        targets_reached := targetsReached
        targets_failed := targetsFailed
        latency_ms := 0
        error_message := none }
    bufDb := bufDbOut }

theorem decodeFrame_encodeRelayMessage (t : Nat) (sender : String)
    (payload : Obj) (priority : String) (now : Int) :
    decodeFrame (encodeRelayMessage t sender payload priority now) = none := by
  have hhead : ∃ rest : List Nat,
      encodeRelayMessage t sender payload priority now = 123 :: rest := by
    rw [encodeRelayMessage, renderJson]
    exact ⟨_, rfl⟩
  obtain ⟨rest, heq⟩ := hhead
  have h16 : readU16 (123 :: rest) 0 > 255 := by
    show (123 :: rest).getD 0 0 * 256 + (123 :: rest).getD (0 + 1) 0 > 255
    simp only [List.getD_cons_zero, List.getD_cons_succ]
    omega
  rw [heq]
  simp only [decodeFrame]
  rw [if_pos (Or.inr h16)]

/-- C3 (amended): the datagram `sendToTarget` hands to the UDP socket for
a mapped target is the UTF-8 JSON text of
`{ type, sender: "synapse-relay", payload, priority, timestamp }` — the
sender rides as a top-level field next to the untouched payload, not
injected into it — and that datagram is never a valid frame of the wire
codec's primary binary format: its header reads fail the codec's
signal-type range check.  (The original claim fails: the engine has its
own JSON encoder and does not call the binary codec.) -/
theorem C3_engine_datagram (cfg : RelayConfig) (target : String)
    (signalType : Nat) (payload : Obj) (priority : String) (now : Int)
    (port : Nat) (hport : lookupPort cfg target = some port) :
    sendToTarget cfg target signalType payload priority now
      = some (encodeRelayMessage signalType "synapse-relay" payload priority now,
          port)
    ∧ objGet (engineMessageObj signalType "synapse-relay" payload priority now)
        "sender" = some (Json.str "synapse-relay")
    ∧ objGet (engineMessageObj signalType "synapse-relay" payload priority now)
        "payload" = some (Json.obj payload)
    ∧ decodeFrame
        (encodeRelayMessage signalType "synapse-relay" payload priority now)
        = none := by
  refine ⟨?_, rfl, rfl, decodeFrame_encodeRelayMessage _ _ _ _ _⟩
  rw [sendToTarget.eq_def, hport]

/-- C3 counterexample to the claim as stated: at a concrete relay request
the engine's datagram is not in the primary framed binary format — the
codec's binary decoder rejects it. -/
theorem C3_engine_datagram_cex :
    decodeFrame (encodeRelayMessage 80 "synapse-relay" [] "normal" 1700000000000)
      = none :=
  decodeFrame_encodeRelayMessage 80 "synapse-relay" [] "normal" 1700000000000

/-- Witness for C3 at a concrete instance. -/
theorem C3_engine_datagram_witness :
    sendToTarget ⟨[("A", 4001)], ⟨1000, 24, [1000, 5000, 15000]⟩⟩ "A" 80 []
        "normal" 0
      = some (encodeRelayMessage 80 "synapse-relay" [] "normal" 0, 4001)
    ∧ decodeFrame (encodeRelayMessage 80 "synapse-relay" [] "normal" 0) = none := by
  have h := C3_engine_datagram ⟨[("A", 4001)], ⟨1000, 24, [1000, 5000, 15000]⟩⟩
    "A" 80 [] "normal" 0 4001 rfl
  exact ⟨h.1, h.2.2.2⟩

/-- C9 (amended): in every record `relaySignal` writes, `targets_reached`
and `targets_failed` each list only request targets, together they are a
permutation of the target list, the stored `success` is 1 exactly when
`targets_reached` is non-empty and the returned `relayed` flag agrees;
when the target list is duplicate-free the two lists are disjoint.  (The
original claim's unconditional disjointness fails: a target listed twice
can land in both lists, one send succeeding and the other failing.) -/
theorem C9_relay_record (cfg : RelayConfig) (rules : List DbRelayRule)
    (regexOk : String → Bool) (regexTest : String → String → Bool)
    (sendOk : Nat → Bool) (relayId : String) (bufIds : Nat → String)
    (now : Int) (bufDb : List BufferRow) (req : RelayRequest) :
    (∀ t ∈ (relaySignal cfg rules regexOk regexTest sendOk relayId bufIds now
        bufDb req).record.targets_reached, t ∈ req.target_servers)
    ∧ (∀ t ∈ (relaySignal cfg rules regexOk regexTest sendOk relayId bufIds now
        bufDb req).record.targets_failed, t ∈ req.target_servers)
    ∧ ((relaySignal cfg rules regexOk regexTest sendOk relayId bufIds now
          bufDb req).record.targets_reached
        ++ (relaySignal cfg rules regexOk regexTest sendOk relayId bufIds now
          bufDb req).record.targets_failed).Perm req.target_servers
    ∧ (req.target_servers.Nodup → ∀ t : String,
        ¬(t ∈ (relaySignal cfg rules regexOk regexTest sendOk relayId bufIds now
            bufDb req).record.targets_reached
          ∧ t ∈ (relaySignal cfg rules regexOk regexTest sendOk relayId bufIds now
            bufDb req).record.targets_failed))
    ∧ ((relaySignal cfg rules regexOk regexTest sendOk relayId bufIds now
          bufDb req).record.success = 1
        ↔ (relaySignal cfg rules regexOk regexTest sendOk relayId bufIds now
          bufDb req).record.targets_reached ≠ [])
    ∧ ((relaySignal cfg rules regexOk regexTest sendOk relayId bufIds now
          bufDb req).result.relayed = true
        ↔ (relaySignal cfg rules regexOk regexTest sendOk relayId bufIds now
          bufDb req).record.success = 1) := by
  have hR : (relaySignal cfg rules regexOk regexTest sendOk relayId bufIds now
      bufDb req).record.targets_reached
      = (req.target_servers.enum.filter
          (fun p => (lookupPort cfg p.2).isSome && sendOk p.1)).map
        (fun p => p.2) := rfl
  have hF : (relaySignal cfg rules regexOk regexTest sendOk relayId bufIds now
      bufDb req).record.targets_failed
      = (req.target_servers.enum.filter
          (fun p => !((lookupPort cfg p.2).isSome && sendOk p.1))).map
        (fun p => p.2) := rfl
  have hS : (relaySignal cfg rules regexOk regexTest sendOk relayId bufIds now
      bufDb req).record.success
      = if ((req.target_servers.enum.filter
            (fun p => (lookupPort cfg p.2).isSome && sendOk p.1)).map
          (fun p => p.2)).length > 0 then 1 else 0 := rfl
  have hRel : (relaySignal cfg rules regexOk regexTest sendOk relayId bufIds now
      bufDb req).result.relayed
      = decide (((req.target_servers.enum.filter
            (fun p => (lookupPort cfg p.2).isSome && sendOk p.1)).map
          (fun p => p.2)).length > 0) := rfl
  have hmemR : ∀ t, t ∈ ((req.target_servers.enum.filter
        (fun p => (lookupPort cfg p.2).isSome && sendOk p.1)).map
      (fun p => p.2)) →
      ∃ i, req.target_servers.get? i = some t
        ∧ ((lookupPort cfg t).isSome && sendOk i) = true := by
    intro t ht
    rcases List.mem_map.mp ht with ⟨p, hp, hpt⟩
    rcases List.mem_filter.mp hp with ⟨hpe, hpf⟩
    obtain ⟨i, t'⟩ := p
    simp only at hpt
    subst hpt
    exact ⟨i, List.mk_mem_enum_iff_get?.mp hpe, hpf⟩
  have hmemF : ∀ t, t ∈ ((req.target_servers.enum.filter
        (fun p => !((lookupPort cfg p.2).isSome && sendOk p.1))).map
      (fun p => p.2)) →
      ∃ i, req.target_servers.get? i = some t
        ∧ ((lookupPort cfg t).isSome && sendOk i) = false := by
    intro t ht
    rcases List.mem_map.mp ht with ⟨p, hp, hpt⟩
    rcases List.mem_filter.mp hp with ⟨hpe, hpf⟩
    obtain ⟨i, t'⟩ := p
    simp only at hpt
    subst hpt
    refine ⟨i, List.mk_mem_enum_iff_get?.mp hpe, ?_⟩
    cases hval : ((lookupPort cfg t').isSome && sendOk i)
    · rfl
    · rw [hval] at hpf
      exact Bool.noConfusion hpf
  refine ⟨?_, ?_, ?_, ?_, ?_, ?_⟩
  · rw [hR]
    intro t ht
    rcases hmemR t ht with ⟨i, hi, _⟩
    exact List.get?_mem hi
  · rw [hF]
    intro t ht
    rcases hmemF t ht with ⟨i, hi, _⟩
    exact List.get?_mem hi
  · rw [hR, hF, ← List.map_append]
    have hperm : (req.target_servers.enum.filter
          (fun p => (lookupPort cfg p.2).isSome && sendOk p.1)
        ++ req.target_servers.enum.filter
          (fun p => !((lookupPort cfg p.2).isSome && sendOk p.1))).Perm
        req.target_servers.enum :=
      List.filter_append_perm _ _
    have := hperm.map (fun p : Nat × String => p.2)
    rwa [List.enum_map_snd] at this
  · intro hnodup t ⟨htr, htf⟩
    rw [hR] at htr
    rw [hF] at htf
    rcases hmemR t htr with ⟨i, hi, hoki⟩
    rcases hmemF t htf with ⟨j, hj, hokj⟩
    have hij : i = j := by
      rcases List.get?_eq_some.mp hi with ⟨hilt, higet⟩
      rcases List.get?_eq_some.mp hj with ⟨hjlt, hjget⟩
      have hinj := List.nodup_iff_injective_get.mp hnodup
      have hget : req.target_servers.get ⟨i, hilt⟩
          = req.target_servers.get ⟨j, hjlt⟩ := by rw [higet, hjget]
      exact congrArg Fin.val (hinj hget)
    rw [hij, hokj] at hoki
    cases hoki
  · rw [hS, hR]
    by_cases hlen : ((req.target_servers.enum.filter
          (fun p => (lookupPort cfg p.2).isSome && sendOk p.1)).map
        (fun p => p.2)).length > 0
    · rw [if_pos hlen]
      constructor
      · intro _
        exact List.ne_nil_of_length_pos hlen
      · intro _; rfl
    · rw [if_neg hlen]
      constructor
      · intro h
        exact absurd h (by decide)
      · intro h
        exact absurd (List.length_pos_of_ne_nil h) hlen
  · rw [hRel, hS]
    by_cases hlen : ((req.target_servers.enum.filter
          (fun p => (lookupPort cfg p.2).isSome && sendOk p.1)).map
        (fun p => p.2)).length > 0
    · rw [if_pos hlen]
      constructor
      · intro _; rfl
      · intro _
        exact decide_eq_true hlen
    · rw [if_neg hlen]
      constructor
      · intro h
        exact absurd (of_decide_eq_true h) hlen
      · intro h
        exact absurd h (by decide)

/-- The duplicate-target request of the C9 counterexample. -/
def c9Req : RelayRequest :=
  { signal_type := 80, source_server := "src", target_servers := ["A", "A"]
    payload := [], priority := "normal", buffer_if_offline := false }

/-- The one-peer configuration of the C9 counterexample. -/
def c9Cfg : RelayConfig :=
  { peer_ports := [("A", 4001)], buffer_config := ⟨1000, 24, [1000, 5000, 15000]⟩ }

/-- C9 counterexample to the claimed disjointness: target `A` listed
twice, first send succeeding and second failing, lands in both
`targets_reached` and `targets_failed`. -/
theorem C9_relay_record_cex :
    "A" ∈ (relaySignal c9Cfg [] (fun _ => true) (fun _ _ => true)
        (fun i => i == 0) "rid" (fun _ => "bid") 0 [] c9Req).record.targets_reached
    ∧ "A" ∈ (relaySignal c9Cfg [] (fun _ => true) (fun _ _ => true)
        (fun i => i == 0) "rid" (fun _ => "bid") 0 [] c9Req).record.targets_failed := by
  decide

/-- Witness for C9 at a concrete instance: with a duplicate-free target
list, no target is both reached and failed. -/
theorem C9_relay_record_witness :
    ¬("A" ∈ (relaySignal c9Cfg [] (fun _ => true) (fun _ _ => true)
        (fun _ => true) "rid" (fun _ => "bid") 0 []
        { signal_type := 80, source_server := "src", target_servers := ["A"]
          payload := [], priority := "normal",
          buffer_if_offline := false }).record.targets_reached
      ∧ "A" ∈ (relaySignal c9Cfg [] (fun _ => true) (fun _ _ => true)
        (fun _ => true) "rid" (fun _ => "bid") 0 []
        { signal_type := 80, source_server := "src", target_servers := ["A"]
          payload := [], priority := "normal",
          buffer_if_offline := false }).record.targets_failed) :=
  (C9_relay_record c9Cfg [] (fun _ => true) (fun _ _ => true) (fun _ => true)
    "rid" (fun _ => "bid") 0 []
    { signal_type := 80, source_server := "src", target_servers := ["A"]
      payload := [], priority := "normal",
      buffer_if_offline := false }).2.2.2.1 (by decide) "A"

theorem relay_bufferFold_mem (st : Nat) (src : String) (payload : Obj)
    (prio : String) (bufIds : Nat → String) (now : Int) :
    ∀ (idx : List (Nat × String)) (db : List BufferRow) (r : BufferRow),
      r ∈ idx.foldl
          (fun db p => (bufferSignal db (bufIds p.1) st src p.2 payload prio
            DEFAULT_TTL_HOURS now).1) db →
      r ∈ db ∨ (r.max_retries = 3 ∧ r.retry_count = 0
        ∧ r.status = BufferStatus.pending
        ∧ r.expires_at = some (r.buffered_at + 86400000)) := by
  intro idx
  induction idx with
  | nil => intro db r h; exact Or.inl h
  | cons p rest ih =>
    intro db r h
    rw [List.foldl_cons] at h
    rcases ih _ r h with h | h
    · rcases mem_insertBufferedSignal_cases h with h | h
      · exact Or.inl h
      · right
        subst h
        refine ⟨rfl, rfl, rfl, ?_⟩
        show some (now + 24 * 60 * 60 * 1000) = some (now + 86400000)
        norm_num
    · exact Or.inr h

/-- C10: every buffered row the delivery engine creates carries the
buffer manager's hard-coded defaults — `max_retries = 3`,
`retry_count = 0`, status `pending`, `expires_at = buffered_at + 24h` —
and the configured `buffer_config` (its `ttl_hours` and
`retry_intervals_ms` included) has no effect on the call at all. -/
theorem C10_engine_buffer_defaults (cfg : RelayConfig)
    (rules : List DbRelayRule) (regexOk : String → Bool)
    (regexTest : String → String → Bool) (sendOk : Nat → Bool)
    (relayId : String) (bufIds : Nat → String) (now : Int)
    (bufDb : List BufferRow) (req : RelayRequest) :
    (∀ r ∈ (relaySignal cfg rules regexOk regexTest sendOk relayId bufIds now
        bufDb req).bufDb,
      r ∈ bufDb ∨ (r.max_retries = 3 ∧ r.retry_count = 0
        ∧ r.status = BufferStatus.pending
        ∧ r.expires_at = some (r.buffered_at + 86400000)))
    ∧ ∀ bc bc' : BufferConfig,
        relaySignal ⟨cfg.peer_ports, bc⟩ rules regexOk regexTest sendOk relayId
          bufIds now bufDb req
        = relaySignal ⟨cfg.peer_ports, bc'⟩ rules regexOk regexTest sendOk
          relayId bufIds now bufDb req := by
  constructor
  · intro r hr
    have hb0 : (relaySignal cfg rules regexOk regexTest sendOk relayId bufIds
        now bufDb req).bufDb
        = if req.buffer_if_offline then
            (req.target_servers.enum.filter
              (fun p => !((lookupPort cfg p.2).isSome && sendOk p.1))).foldl
              (fun db p => (bufferSignal db (bufIds p.1) req.signal_type
                req.source_server p.2
                (transformedPayload rules regexOk regexTest req) req.priority
                DEFAULT_TTL_HOURS now).1) bufDb
          else bufDb := rfl
    rw [hb0] at hr
    by_cases hoff : req.buffer_if_offline
    · rw [if_pos hoff] at hr
      exact relay_bufferFold_mem _ _ _ _ _ _ _ _ r hr
    · rw [if_neg hoff] at hr
      exact Or.inl hr
  · intro bc bc'
    rfl

/-- The row the C10 witness's relay call buffers for unmapped target
`B`. -/
def c10Row : BufferRow :=
  { id := "u0", signal_type := 80, source_server := "src", target_server := "B"
    payload := Json.obj [], priority := "normal", buffered_at := 0
    retry_count := 0, last_retry_at := none, max_retries := 3
    expires_at := some 86400000, status := .pending }

/-- Witness for C10 at a concrete instance: relaying to the unmapped
target `B` with buffering on creates exactly the default-shaped row. -/
theorem C10_engine_buffer_defaults_witness :
    c10Row ∈ (relaySignal c9Cfg [] (fun _ => true) (fun _ _ => true)
        (fun _ => true) "rid" (fun _ => "u0") 0 []
        { signal_type := 80, source_server := "src", target_servers := ["B"]
          payload := [], priority := "normal",
          buffer_if_offline := true }).bufDb
    ∧ (c10Row ∈ ([] : List BufferRow)
      ∨ (c10Row.max_retries = 3 ∧ c10Row.retry_count = 0
        ∧ c10Row.status = BufferStatus.pending
        ∧ c10Row.expires_at = some (c10Row.buffered_at + 86400000))) := by
  have hmem : c10Row ∈ (relaySignal c9Cfg [] (fun _ => true) (fun _ _ => true)
      (fun _ => true) "rid" (fun _ => "u0") 0 []
      { signal_type := 80, source_server := "src", target_servers := ["B"]
        payload := [], priority := "normal",
        buffer_if_offline := true }).bufDb := by
    rw [show (relaySignal c9Cfg [] (fun _ => true) (fun _ _ => true)
        (fun _ => true) "rid" (fun _ => "u0") 0 []
        { signal_type := 80, source_server := "src", target_servers := ["B"]
          payload := [], priority := "normal",
          buffer_if_offline := true }).bufDb = [c10Row] from rfl]
    exact List.mem_singleton.mpr rfl
  exact ⟨hmem, (C10_engine_buffer_defaults c9Cfg [] (fun _ => true)
    (fun _ _ => true) (fun _ => true) "rid" (fun _ => "u0") 0 []
    { signal_type := 80, source_server := "src", target_servers := ["B"]
      payload := [], priority := "normal",
      buffer_if_offline := true }).1 c10Row hmem⟩

/-! ## Statistics query (stats-aggregator, getRelayStatistics) -/

/-- One `relay_stats` row (type `DbRelayStats`); `avg_latency_ms` (REAL)
is carried as a rational. -/
structure DbRelayStats where
  id : Int
  period_start : Int
  signal_type : Option Nat
  source_server : Option String
  target_server : Option String
  total_relayed : Int
  success_count : Int
  failure_count : Int
  avg_latency_ms : Option ℚ
  max_latency_ms : Option Int
  buffered_count : Int

/-- The `ORDER BY period_start DESC` key of `getRelayStats`. -/
def statsOrderLe (a b : DbRelayStats) : Prop := b.period_start ≤ a.period_start

instance : DecidableRel statsOrderLe := fun a b => by
  unfold statsOrderLe; infer_instance

instance : IsTotal DbRelayStats statsOrderLe :=
  ⟨fun a b => (Int.le_total b.period_start a.period_start).imp id id⟩

instance : IsTrans DbRelayStats statsOrderLe :=
  ⟨fun _ _ _ hab hbc => hbc.trans hab⟩

/-- `getRelayStats(since, until?)` (schema.ts): rows with
`period_start ≥ since`, and `≤ until` when `until` is truthy (an `until`
of 0 adds no upper bound), period descending. -/
def getRelayStats (statsDb : List DbRelayStats) (since : Int)
    (untilOpt : Option Int) : List DbRelayStats :=
  List.insertionSort statsOrderLe (statsDb.filter (fun s =>
    decide (since ≤ s.period_start)
      && (match untilOpt with
          | some u => if u == 0 then true else decide (s.period_start ≤ u)
          | none => true)))

/-- The `buffer_stats` record `getRelayStatistics` returns: its declared
type carries only three of the store's four status counts. -/
structure BufferStatsOut where
  pending : Nat
  delivered : Nat
  expired : Nat
deriving DecidableEq, Repr

/-- The overall result of `getRelayStatistics`.  The `by_group` output is
outside the modelled fragment (none of the verified properties reads it);
the `includeFailures` parameter is accepted and unused in the source. -/
structure RelayStatisticsOut where
  total_relayed : Int
  success_rate : ℚ
  avg_latency_ms : ℚ
  buffer_stats : BufferStatsOut
deriving DecidableEq

/-- `getRelayStatistics(since, until?, groupBy?, includeFailures)`
(stats-aggregator:135-223): sums over the selected `relay_stats` rows,
rate and latency averages, and a `buffer_stats` record built from
`db.getBufferStats()` — copying only its `pending`, `delivered` and
`expired` counts. -/
def getRelayStatistics (statsDb : List DbRelayStats) (bufDb : List BufferRow)
    (since : Int) (untilOpt : Option Int) : RelayStatisticsOut :=
  let stats := getRelayStats statsDb since untilOpt
  let bufferStats := getBufferStats bufDb
  let totalRelayed := (stats.map (fun s => s.total_relayed)).sum
  let totalSuccess := (stats.map (fun s => s.success_count)).sum
  let totalLatency : ℚ := (stats.map (fun s =>
    match s.avg_latency_ms with
    | some q => q * (s.total_relayed : ℚ)
    | none => 0)).sum
  let latencyCount := (stats.map (fun s =>
    match s.avg_latency_ms with
    | some _ => s.total_relayed
    | none => 0)).sum
  { total_relayed := totalRelayed
    success_rate :=
      if totalRelayed > 0 then (totalSuccess : ℚ) / (totalRelayed : ℚ) * 100
      else 0
    avg_latency_ms :=
      if latencyCount > 0 then totalLatency / (latencyCount : ℚ) else 0
    buffer_stats :=
      { pending := bufferStats.pending
        delivered := bufferStats.delivered
        expired := bufferStats.expired } }

/-- C4 (amended): the query's `buffer_stats` holds the store's live
`pending`, `delivered` and `expired` counts — and those three plus the
store's `failed` count partition the buffer table — but the `failed`
count itself is dropped on the way out.  (The original claim's "all four
states" fails; the result type has no `failed` field.) -/
theorem C4_buffer_stats_reported (statsDb : List DbRelayStats)
    (bufDb : List BufferRow) (since : Int) (untilOpt : Option Int) :
    ((getRelayStatistics statsDb bufDb since untilOpt).buffer_stats.pending
        = (getBufferStats bufDb).pending
      ∧ (getRelayStatistics statsDb bufDb since untilOpt).buffer_stats.delivered
        = (getBufferStats bufDb).delivered
      ∧ (getRelayStatistics statsDb bufDb since untilOpt).buffer_stats.expired
        = (getBufferStats bufDb).expired)
    ∧ (getBufferStats bufDb).pending + (getBufferStats bufDb).delivered
        + (getBufferStats bufDb).expired + (getBufferStats bufDb).failed
      = bufDb.length := by
  refine ⟨⟨rfl, rfl, rfl⟩, ?_⟩
  induction bufDb with
  | nil => rfl
  | cons r rest ih =>
    simp only [getBufferStats, List.filter_cons] at ih ⊢
    cases hr : r.status <;> simp [hr] <;> omega

/-- A failed buffered row for the C4 counterexample. -/
def c4Row : BufferRow :=
  { id := "f1", signal_type := 5, source_server := "s", target_server := "t"
    payload := Json.obj [], priority := "normal", buffered_at := 0
    retry_count := 3, last_retry_at := some 10, max_retries := 3
    expires_at := none, status := .failed }

/-- C4 counterexample to the claim as stated: two stores that differ only
in their `failed` count produce identical query results — the `failed`
state is not reported. -/
theorem C4_buffer_stats_reported_cex :
    getRelayStatistics [] [c4Row] 0 none = getRelayStatistics [] [] 0 none
    ∧ (getBufferStats [c4Row]).failed ≠ (getBufferStats []).failed := by
  constructor
  · rfl
  · decide

end SynapseRelay
